import Mathlib

/-!
# Tanki: a shallow embedding of `main.go` and its verified properties

The Go program keeps the whole session in package-level variables (`player`,
`enemies`, `bullets`, `walls`, `score`, `isOver`, `playerMoveCooldown`, `rng`).
Here they are the fields of one record `Game`, and every Go function that
reads or writes them becomes a function that receives a `Game` and returns the
next one (together with the object it mutated through a pointer argument).

Modelling conventions.

* `int` is modelled by `Int`, without the 64-bit wrap-around.  A coordinate
  changes by one step at a time and is then compared with the grid bounds: a
  step that would wrap lands outside the interior with or without the wrap,
  so `tryMove`, `moveBullet` and `fireBullet` agree with the Go code on every
  64-bit position.  The score grows by 100 per destroyed enemy and is taken
  to stay below `2^63`.  The `float64` comparison of the two offsets in
  `updateEnemyAI` is the comparison of their absolute values (exact below
  `2^53`).
* `map[Point]bool` is a duplicate-free list of the keys that are present;
  a lookup of a missing key gives `false`, as in Go.
* `[]*Object` and `[]*Bullet` are lists of values.  Every pointer is created
  once (in `spawnEnemy` or `fireBullet`) and appended once, so no two list
  entries alias; a loop that mutates the entries in place returns the updated
  list.
* `*rand.Rand` is an oracle: an infinite stream of raw draws and a cursor.
  `Intn n` is the next draw modulo `n`, `Float32` is the next draw modulo
  `2^24` read as a numerator over `2^24`, and a test `rng.Float32() < p` is the
  exact comparison of that fraction with `p` (for `p` among 0.25, 0.2, 0.1 and
  0.05 it agrees with the `float32` comparison).  Every sequence of outcomes of
  the Go generator is the image of some stream.
* The `for`/`select` loop of `main` is the step function `mainStep` over what
  the `select` receives.  `draw` and `drawGameOver` only read the state and
  are left out, except `drawNumber`, whose `SetCell` calls are returned as a
  list.
-/

namespace Tanki

/-! ## Constants and data model (`main.go` lines 19-65) -/

/-- Grid width. -/
abbrev Width : Int := 40

/-- Grid height. -/
abbrev Height : Int := 20

/-- Number of ticks between player moves, as the source comments it. -/
abbrev PlayerMoveDelay : Int := 2

/-- The four headings, in the order of the `iota` block. -/
inductive Direction where
  | Up
  | Down
  | Left
  | Right
deriving DecidableEq

/-- Conversion `Direction(n)` for the values `rng.Intn(4)` can return. -/
def Direction.ofInt (n : Int) : Direction :=
  if n = 0 then Direction.Up
  else if n = 1 then Direction.Down
  else if n = 2 then Direction.Left
  else Direction.Right

/-- A grid cell. -/
structure Point where
  X : Int
  Y : Int
deriving DecidableEq

/-- A tank: the player or an enemy. -/
structure Object where
  Pos : Point
  Dir : Direction
  id : Int
deriving DecidableEq

/-- A bullet with its liveness flag. -/
structure Bullet where
  Pos : Point
  Dir : Direction
  Active : Bool
deriving DecidableEq

/-- The random source: a stream of raw draws and the index of the next one. -/
structure Rand where
  draws : Nat → Nat
  pos : Nat

/-- The call `rng.Intn(n)`: a value in `[0, n)` and the advanced source. -/
def Rand.Intn (r : Rand) (n : Int) : Int × Rand :=
  (((r.draws r.pos : Nat) : Int) % n, { r with pos := r.pos + 1 })

/-- The call `rng.Float32()`: the numerator `k` of the fraction `k / 2^24`. -/
def Rand.Float32 (r : Rand) : Nat × Rand :=
  (r.draws r.pos % 2 ^ 24, { r with pos := r.pos + 1 })

/-- The call `rng.Int()`: a non-negative 63-bit value. -/
def Rand.Int63 (r : Rand) : Int × Rand :=
  (((r.draws r.pos % 2 ^ 63 : Nat) : Int), { r with pos := r.pos + 1 })

/-- The test `f < num/den` for a `Float32` outcome `f = k / 2^24`. -/
def below (k num den : Nat) : Bool :=
  decide (k * den < num * 2 ^ 24)

/-- The wall map, as the list of its keys. -/
abbrev Walls := List Point

/-- The lookup `walls[p]`. -/
def hasWall (w : Walls) (p : Point) : Bool :=
  decide (p ∈ w)

/-- The assignment `walls[p] = true`. -/
def setWall (w : Walls) (p : Point) : Walls :=
  if p ∈ w then w else p :: w

/-- The call `delete(walls, p)`. -/
def deleteWall (w : Walls) (p : Point) : Walls :=
  w.filter (fun q => decide (q ≠ p))

/-- The global session state. -/
structure Game where
  player : Object
  enemies : List Object
  bullets : List Bullet
  walls : Walls
  score : Int
  isOver : Bool
  playerMoveCooldown : Int
  rng : Rand

/-- Keys of a keyboard event that the program distinguishes. -/
inductive Key where
  | KeyArrowUp
  | KeyArrowDown
  | KeyArrowLeft
  | KeyArrowRight
  | KeySpace
  | KeyEsc
  | Other (code : Nat)
deriving DecidableEq

/-! ## Movement (`main.go` lines 180-240) -/

/-- The `switch` on the heading shared by `tryMove` and `moveBullet`. -/
def stepPos (p : Point) (d : Direction) : Point :=
  match d with
  | Direction.Up => { p with Y := p.Y - 1 }
  | Direction.Down => { p with Y := p.Y + 1 }
  | Direction.Left => { p with X := p.X - 1 }
  | Direction.Right => { p with X := p.X + 1 }

/-- The border test `X <= 0 || X >= Width-1 || Y <= 0 || Y >= Height-1`. -/
def outOfBounds (p : Point) : Bool :=
  decide (p.X ≤ 0) || decide (p.X ≥ Width - 1) || decide (p.Y ≤ 0) || decide (p.Y ≥ Height - 1)

/-- Function `tryMove(obj)`: the result flag, the tank after the call and the
global state after the call. -/
def tryMove (obj : Object) (g : Game) : Bool × Object × Game :=
  if outOfBounds (stepPos obj.Pos obj.Dir) then (false, obj, g)
  else if hasWall g.walls (stepPos obj.Pos obj.Dir) then (false, obj, g)
  else (true, { obj with Pos := stepPos obj.Pos obj.Dir }, g)

/-- Function `moveBullet(b)`: the bullet and the global state after the call. -/
def moveBullet (b : Bullet) (g : Game) : Bullet × Game :=
  if outOfBounds (stepPos b.Pos b.Dir) then
    ({ b with Pos := stepPos b.Pos b.Dir, Active := false }, g)
  else if hasWall g.walls (stepPos b.Pos b.Dir) then
    ({ b with Pos := stepPos b.Pos b.Dir, Active := false },
      { g with walls := deleteWall g.walls (stepPos b.Pos b.Dir) })
  else ({ b with Pos := stepPos b.Pos b.Dir }, g)

/-- Function `fireBullet(pos, dir)`. -/
def fireBullet (pos : Point) (dir : Direction) (g : Game) : Game :=
  if (moveBullet { Pos := pos, Dir := dir, Active := true } g).1.Active then
    { (moveBullet { Pos := pos, Dir := dir, Active := true } g).2 with
      bullets := (moveBullet { Pos := pos, Dir := dir, Active := true } g).2.bullets ++
        [(moveBullet { Pos := pos, Dir := dir, Active := true } g).1] }
  else (moveBullet { Pos := pos, Dir := dir, Active := true } g).2

/-! ## Session set-up (`main.go` lines 113-163) -/

/-- The first loop of `generateWalls`, run for `n` more iterations. -/
def generateWallsLoop : Nat → Game → Game
  | 0, g => g
  | n + 1, g =>
    generateWallsLoop n
      (if (g.rng.Intn (Width - 2)).1 + 1 < 5 then
        { g with rng := ((g.rng.Intn (Width - 2)).2.Intn (Height - 2)).2 }
      else
        { g with
          rng := ((g.rng.Intn (Width - 2)).2.Intn (Height - 2)).2,
          walls := setWall g.walls
            { X := (g.rng.Intn (Width - 2)).1 + 1,
              Y := ((g.rng.Intn (Width - 2)).2.Intn (Height - 2)).1 + 1 } })

/-- The second loop of `generateWalls`: rows 5 to 14 of the middle column. -/
def midWallLoop (w : Walls) : Walls :=
  (List.range 10).foldl
    (fun (acc : Walls) (i : Nat) => setWall acc { X := Width / 2, Y := 5 + (i : Int) }) w

/-- Function `generateWalls()`. -/
def generateWalls (g : Game) : Game :=
  { generateWallsLoop 40 g with walls := midWallLoop (generateWallsLoop 40 g).walls }

/-- Function `spawnEnemy()`. -/
def spawnEnemy (g : Game) : Game :=
  { g with
    enemies := g.enemies ++
      [{ Pos :=
          { X := Width - 2,
            Y := if hasWall g.walls { X := Width - 2, Y := (g.rng.Intn (Height - 2)).1 + 1 }
                 then (g.rng.Intn (Height - 2)).1 + 1 + 1
                 else (g.rng.Intn (Height - 2)).1 + 1 },
         Dir := Direction.Left,
         id := (g.rng.Intn (Height - 2)).2.Int63.1 }],
    rng := (g.rng.Intn (Height - 2)).2.Int63.2 }

/-- Function `initGame()`: only the random source survives from the old state. -/
def initGame (g : Game) : Game :=
  spawnEnemy (spawnEnemy (spawnEnemy (generateWalls
    { player := { Pos := { X := 2, Y := Height / 2 }, Dir := Direction.Right, id := 0 },
      enemies := [],
      bullets := [],
      walls := [],
      score := 0,
      isOver := false,
      playerMoveCooldown := 0,
      rng := g.rng })))

/-- Function `handleInput(ev)`, on the key of the event. -/
def handleInput (k : Key) (g : Game) : Game :=
  match k with
  | Key.KeyArrowUp => { g with player := { g.player with Dir := Direction.Up } }
  | Key.KeyArrowDown => { g with player := { g.player with Dir := Direction.Down } }
  | Key.KeyArrowLeft => { g with player := { g.player with Dir := Direction.Left } }
  | Key.KeyArrowRight => { g with player := { g.player with Dir := Direction.Right } }
  | Key.KeySpace => fireBullet g.player.Pos g.player.Dir g
  | _ => g

/-! ## Enemy AI (`main.go` lines 242-284) -/

/-- The heading chosen by the pursuit branch of `updateEnemyAI`. -/
def pursuitDir (player e : Point) : Direction :=
  if (player.X - e.X).natAbs > (player.Y - e.Y).natAbs then
    (if player.X - e.X > 0 then Direction.Right else Direction.Left)
  else
    (if player.Y - e.Y > 0 then Direction.Down else Direction.Up)

/-- The statements `e.Dir = Direction(rng.Intn(4)); tryMove(e)`. -/
def randomMove (e : Object) (g : Game) : Object × Game :=
  ((tryMove { e with Dir := Direction.ofInt (g.rng.Intn 4).1 } { g with rng := (g.rng.Intn 4).2 }).2.1,
   (tryMove { e with Dir := Direction.ofInt (g.rng.Intn 4).1 } { g with rng := (g.rng.Intn 4).2 }).2.2)

/-- Part 1 of `updateEnemyAI`: the movement decision. -/
def enemyMove (e : Object) (g : Game) : Object × Game :=
  if below g.rng.Float32.1 1 5 then
    randomMove e { g with rng := g.rng.Float32.2 }
  else if (tryMove { e with Dir := pursuitDir g.player.Pos e.Pos }
      { g with rng := g.rng.Float32.2 }).1 then
    ((tryMove { e with Dir := pursuitDir g.player.Pos e.Pos } { g with rng := g.rng.Float32.2 }).2.1,
     (tryMove { e with Dir := pursuitDir g.player.Pos e.Pos } { g with rng := g.rng.Float32.2 }).2.2)
  else
    randomMove
      (tryMove { e with Dir := pursuitDir g.player.Pos e.Pos } { g with rng := g.rng.Float32.2 }).2.1
      (tryMove { e with Dir := pursuitDir g.player.Pos e.Pos } { g with rng := g.rng.Float32.2 }).2.2

/-- Part 2 of `updateEnemyAI`: the fire decision; the random draw is made only
when the enemy shares a row or a column with the player. -/
def enemyFire (e : Object) (g : Game) : Game :=
  if e.Pos.X = g.player.Pos.X ∨ e.Pos.Y = g.player.Pos.Y then
    (if below g.rng.Float32.1 1 10 then
      fireBullet e.Pos e.Dir { g with rng := g.rng.Float32.2 }
    else { g with rng := g.rng.Float32.2 })
  else g

/-- Function `updateEnemyAI(e)`. -/
def updateEnemyAI (e : Object) (g : Game) : Object × Game :=
  ((enemyMove e g).1, enemyFire (enemyMove e g).1 (enemyMove e g).2)

/-! ## One tick (`main.go` lines 286-348) -/

/-- The bullet loop: every listed bullet is moved, the active ones are kept. -/
def moveBullets : List Bullet → Game → List Bullet × Game
  | [], g => ([], g)
  | b :: bs, g =>
    (if (moveBullet b g).1.Active then
        (moveBullet b g).1 :: (moveBullets bs (moveBullet b g).2).1
      else (moveBullets bs (moveBullet b g).2).1,
     (moveBullets bs (moveBullet b g).2).2)

/-- Lines 287-295: move the bullets and prune the list. -/
def bulletsPhase (g : Game) : Game :=
  { (moveBullets g.bullets g).2 with bullets := (moveBullets g.bullets g).1 }

/-- Lines 297-303: the throttled player move. -/
def playerPhase (g : Game) : Game :=
  if g.playerMoveCooldown ≤ 0 then
    { (tryMove g.player g).2.2 with
      player := (tryMove g.player g).2.1,
      playerMoveCooldown := PlayerMoveDelay }
  else { g with playerMoveCooldown := g.playerMoveCooldown - 1 }

/-- The body of the enemy loop for one enemy: the optional AI step. -/
def enemyTurn (e : Object) (g : Game) : Object × Game :=
  if below g.rng.Float32.1 1 4 then updateEnemyAI e { g with rng := g.rng.Float32.2 }
  else (e, { g with rng := g.rng.Float32.2 })

/-- The enemy loop of lines 306-315. -/
def enemiesLoop : List Object → Game → List Object × Game
  | [], g => ([], g)
  | e :: es, g =>
    ((enemyTurn e g).1 ::
      (enemiesLoop es
        (if (enemyTurn e g).1.Pos = (enemyTurn e g).2.player.Pos then
          { (enemyTurn e g).2 with isOver := true }
        else (enemyTurn e g).2)).1,
     (enemiesLoop es
        (if (enemyTurn e g).1.Pos = (enemyTurn e g).2.player.Pos then
          { (enemyTurn e g).2 with isOver := true }
        else (enemyTurn e g).2)).2)

/-- Lines 305-315: enemy movement and the tank-vs-tank check. -/
def enemiesPhase (g : Game) : Game :=
  { (enemiesLoop g.enemies g).2 with enemies := (enemiesLoop g.enemies g).1 }

/-- The inner loop of lines 321-328 for an enemy at `p`: whether a bullet hit,
and the bullet list afterwards. -/
def hitScan : List Bullet → Point → Bool × List Bullet
  | [], _ => (false, [])
  | b :: bs, p =>
    if b.Active && decide (b.Pos = p) then (true, { b with Active := false } :: bs)
    else ((hitScan bs p).1, b :: (hitScan bs p).2)

/-- The outer loop of lines 319-332: the surviving enemies and the state. -/
def collideLoop : List Object → Game → List Object × Game
  | [], g => ([], g)
  | e :: es, g =>
    if (hitScan g.bullets e.Pos).1 then
      collideLoop es { g with bullets := (hitScan g.bullets e.Pos).2, score := g.score + 100 }
    else (e :: (collideLoop es g).1, (collideLoop es g).2)

/-- Lines 317-333: the bullet-vs-enemy pass. -/
def collidePhase (g : Game) : Game :=
  { (collideLoop g.enemies g).2 with enemies := (collideLoop g.enemies g).1 }

/-- The loop of lines 336-340. -/
def playerHitLoop : List Bullet → Game → Game
  | [], g => g
  | b :: bs, g =>
    playerHitLoop bs
      (if b.Active && decide (b.Pos = g.player.Pos) then { g with isOver := true } else g)

/-- Lines 335-340: the bullet-vs-player check. -/
def playerHitPhase (g : Game) : Game :=
  playerHitLoop g.bullets g

/-- Lines 342-347: the respawn; the random draw is made only below 3 enemies. -/
def respawnPhase (g : Game) : Game :=
  if g.enemies.length < 3 then
    (if below g.rng.Float32.1 1 20 then spawnEnemy { g with rng := g.rng.Float32.2 }
     else { g with rng := g.rng.Float32.2 })
  else g

/-- Function `updateState()`. -/
def updateState (g : Game) : Game :=
  respawnPhase (playerHitPhase (collidePhase (enemiesPhase (playerPhase (bulletsPhase g)))))

/-- States of a session: produced by `initGame`, then by ticks and key events. -/
inductive Reachable : Game → Prop where
  | init (g0 : Game) : Reachable (initGame g0)
  | tick {g : Game} : Reachable g → Reachable (updateState g)
  | input {g : Game} (k : Key) : Reachable g → Reachable (handleInput k g)

/-- The open interior `1 <= X <= Width-2`, `1 <= Y <= Height-2`. -/
def interior (p : Point) : Prop :=
  1 ≤ p.X ∧ p.X ≤ Width - 2 ∧ 1 ≤ p.Y ∧ p.Y ≤ Height - 2

instance (p : Point) : Decidable (interior p) := by
  unfold interior; infer_instance

/-! ## The driver loop (`main.go` lines 89-110) -/

/-- The type tag of a terminal event; only `EventKey` is looked at. -/
inductive EventType where
  | EventKey
  | EventOther (code : Nat)
deriving DecidableEq

/-- A terminal event, with the two fields the program reads. -/
structure Event where
  EvType : EventType
  Key : Key

/-- What the `select` of the main loop receives: an event of the queue or a
tick of the timer. -/
inductive Select where
  | event (ev : Event)
  | tick

/-- One iteration of the `for`/`select` loop of `main` (lines 89-110): `none`
is the `return` on Esc, otherwise the state after the iteration.  The calls
`draw()` and `drawGameOver()` only read the state. -/
def mainStep (s : Select) (g : Game) : Option Game :=
  match s with
  | Select.event ev =>
    if ev.EvType = EventType.EventKey then
      (if ev.Key = Key.KeyEsc then none
       else if !g.isOver then some (handleInput ev.Key g)
       else some (initGame g))
    else some g
  | Select.tick =>
    if !g.isOver then some (updateState g) else some g

/-! ## Score rendering (`main.go` lines 419-431) -/

/-- The loop `for num > 0` of `drawNumber`, started with the runes `s`: the
rune `'0' + num%10` is put in front of `s` and `num` is divided by 10. -/
def digitsLoop (num : Int) (s : List Char) : List Char :=
  if h : 0 < num then
    digitsLoop (num / 10) (Char.ofNat (48 + (num % 10).toNat) :: s)
  else s
termination_by num.toNat
decreasing_by omega

/-- The rune slice `s` that `drawNumber` builds for `num`. -/
def drawNumberRunes (num : Int) : List Char :=
  digitsLoop num (if num = 0 then ['0'] else [])

/-- One call `termbox.SetCell(X, Y, Ch, Fg, ColorDefault)`. -/
structure Cell where
  X : Int
  Y : Int
  Ch : Char
  Fg : Nat
deriving DecidableEq

/-- The loop `for i, c := range s` of `drawNumber`, from index `i` on: the
calls of `SetCell` in order. -/
def writeRunes (x y : Int) (fg : Nat) : Nat → List Char → List Cell
  | _, [] => []
  | i, c :: cs => { X := x + (i : Int), Y := y, Ch := c, Fg := fg } :: writeRunes x y fg (i + 1) cs

/-- Function `drawNumber(x, y, num, fg)`: the cells it writes, in order. -/
def drawNumber (x y num : Int) (fg : Nat) : List Cell :=
  writeRunes x y fg 0 (drawNumberRunes num)

/-! ## Notions used in the statements -/

/-- The part of the state that only the player phase, the enemy list
write-backs, the kill counter and the game-over checks touch. -/
def Frame (g g' : Game) : Prop :=
  g'.player = g.player ∧ g'.enemies = g.enemies ∧ g'.score = g.score ∧
  g'.isOver = g.isOver ∧ g'.playerMoveCooldown = g.playerMoveCooldown

/-- Number of bullets of a list whose `Active` flag is set. -/
def countActive (bs : List Bullet) : Nat :=
  (bs.filter (fun b => b.Active)).length

/-- The bullet lists agree entry by entry except that flags may have been
cleared: same position and heading, and no flag raised. -/
def FlagsCleared (bs bs' : List Bullet) : Prop :=
  List.Forall₂ (fun b b' => b'.Pos = b.Pos ∧ b'.Dir = b.Dir ∧ (b'.Active = true → b.Active = true))
    bs bs'

/-- The state of a tick at the start of the bullet-vs-enemy pass. -/
def beforePass (g : Game) : Game :=
  enemiesPhase (playerPhase (bulletsPhase g))

/-- The state of a tick at the end of the bullet-vs-enemy pass. -/
def afterPass (g : Game) : Game :=
  collidePhase (beforePass g)

/-- The cells where `generateWalls` may put a wall: columns 5 to `Width-2`,
rows 1 to `Height-2`. -/
def wallRegion (p : Point) : Prop :=
  5 ≤ p.X ∧ p.X ≤ Width - 2 ∧ 1 ≤ p.Y ∧ p.Y ≤ Height - 2

/-- States of one session: reached from `g` by ticks and key events only, with
no call of `initGame` in between. -/
inductive SameSession (g : Game) : Game → Prop where
  | start : SameSession g g
  | tick {s : Game} : SameSession g s → SameSession g (updateState s)
  | input {s : Game} (k : Key) : SameSession g s → SameSession g (handleInput k s)

/-- The player stands strictly inside the interior, on a cell that is not a
wall. -/
def PlayerOk (g : Game) : Prop :=
  interior g.player.Pos ∧ g.player.Pos ∉ g.walls

/-- Manhattan distance between two cells. -/
def manhattan (p q : Point) : Nat :=
  (p.X - q.X).natAbs + (p.Y - q.Y).natAbs

/-- Reading a rune sequence as a decimal number, most significant digit
first. -/
def readBack (s : List Char) : Nat :=
  s.foldl (fun (acc : Nat) (c : Char) => 10 * acc + (c.toNat - 48)) 0

/-! ## Concrete states used to evaluate the program -/

/-- A state with an empty roster, the player at the start cell, the given
walls and a random source whose every raw draw is `v`. -/
def seedG (v : Nat) (w : Walls) : Game :=
  { player := { Pos := { X := 2, Y := 10 }, Dir := Direction.Right, id := 0 },
    enemies := [], bullets := [], walls := w, score := 0, isOver := false,
    playerMoveCooldown := 0, rng := { draws := fun _ => v, pos := 0 } }

/-- A state whose random source never passes a probability test (every raw
draw is `2^24 - 1`): the player at (2, 10) heading right with the given
cooldown, and the given enemies, bullets and walls. -/
def quietG (cd : Int) (es : List Object) (bs : List Bullet) (w : Walls) : Game :=
  { player := { Pos := { X := 2, Y := 10 }, Dir := Direction.Right, id := 0 },
    enemies := es, bullets := bs, walls := w, score := 0, isOver := false,
    playerMoveCooldown := cd, rng := { draws := fun _ => 16777215, pos := 0 } }

/-- A random stream for a first tick with enemy fire: no random wall (80 draws
0), enemies spawned in rows 9, 11 and 1, then a tick in which the first and
third enemy stay idle, the second one takes the random branch, turns up, moves
to (38, 10) and fires; no respawn. -/
def fireStream (i : Nat) : Nat :=
  if i < 80 then 0
  else [8, 0, 10, 0, 0, 0, 16777215, 0, 0, 0, 0, 16777215, 16777215].getD (i - 80) 16777215

/-- A state carrying `fireStream` as its random source. -/
def fireG : Game :=
  { seedG 0 [] with rng := { draws := fireStream, pos := 0 } }

/-! ## Basic facts about cells and walls -/

theorem mem_deleteWall (w : Walls) (c q : Point) :
    q ∈ deleteWall w c ↔ q ∈ w ∧ q ≠ c := by
  simp [deleteWall]

theorem mem_setWall (w : Walls) (c q : Point) :
    q ∈ setWall w c ↔ q = c ∨ q ∈ w := by
  unfold setWall
  split_ifs with h
  · constructor
    · intro hq; exact Or.inr hq
    · rintro (rfl | hq)
      · exact h
      · exact hq
  · simp

theorem outOfBounds_iff (p : Point) : outOfBounds p = true ↔ ¬ interior p := by
  unfold outOfBounds interior
  simp only [Bool.or_eq_true, decide_eq_true_eq, Width, Height]
  omega

theorem outOfBounds_false_iff (p : Point) : outOfBounds p = false ↔ interior p := by
  rw [← Bool.not_eq_true, outOfBounds_iff, not_not]

theorem stepPos_ne (p : Point) (d : Direction) : stepPos p d ≠ p := by
  cases p; cases d <;> simp [stepPos]

/-! ## C1, C2, C10: the movement primitives -/

/-- C1: `tryMove` succeeds exactly when the cell one step ahead is inside the
interior and is not a wall; on success the tank stands on that cell, on
failure it keeps its position; heading, identity and the whole global state
(so the wall set) are unchanged; hence afterwards the tank is inside the
interior or where it was. -/
theorem tryMove_contract (obj : Object) (g : Game) :
    ((tryMove obj g).1 = true ↔
      (1 ≤ (stepPos obj.Pos obj.Dir).X ∧ (stepPos obj.Pos obj.Dir).X ≤ Width - 2 ∧
       1 ≤ (stepPos obj.Pos obj.Dir).Y ∧ (stepPos obj.Pos obj.Dir).Y ≤ Height - 2 ∧
       stepPos obj.Pos obj.Dir ∉ g.walls)) ∧
    (tryMove obj g).2.1.Pos =
      (if (tryMove obj g).1 = true then stepPos obj.Pos obj.Dir else obj.Pos) ∧
    (tryMove obj g).2.1.Dir = obj.Dir ∧
    (tryMove obj g).2.1.id = obj.id ∧
    (tryMove obj g).2.2 = g ∧
    (tryMove obj g).2.2.walls = g.walls ∧
    (interior (tryMove obj g).2.1.Pos ∨ (tryMove obj g).2.1.Pos = obj.Pos) := by
  unfold tryMove
  by_cases hb : outOfBounds (stepPos obj.Pos obj.Dir) = true
  · have hi := (outOfBounds_iff _).1 hb
    simp only [interior] at hi
    simp [hb]
    intro h1 h2 h3 h4
    exact absurd ⟨h1, h2, h3, h4⟩ hi
  · have hi := (outOfBounds_false_iff _).1 (Bool.not_eq_true _ ▸ hb)
    by_cases hw : stepPos obj.Pos obj.Dir ∈ g.walls
    · simp [hb, hasWall, hw]
    · have hi2 := hi
      simp only [interior] at hi2
      simp [hb, hasWall, hw, hi, hi2]

/-- C2: `moveBullet` steps the bullet one cell.  If that cell is outside the
interior the bullet is deactivated and the state is unchanged; if it is an
interior wall cell the bullet is deactivated and the wall set loses exactly
that cell, nothing else in the state changing; otherwise the bullet sits on
the cell with its flag and heading as before and the state is unchanged. -/
theorem moveBullet_contract (b : Bullet) (g : Game) :
    (((stepPos b.Pos b.Dir).X ≤ 0 ∨ (stepPos b.Pos b.Dir).X ≥ Width - 1 ∨
        (stepPos b.Pos b.Dir).Y ≤ 0 ∨ (stepPos b.Pos b.Dir).Y ≥ Height - 1) →
      (moveBullet b g).1.Active = false ∧ (moveBullet b g).2 = g) ∧
    (interior (stepPos b.Pos b.Dir) → stepPos b.Pos b.Dir ∈ g.walls →
      (moveBullet b g).1.Active = false ∧
      (moveBullet b g).2 = { g with walls := (moveBullet b g).2.walls } ∧
      ∀ q, q ∈ (moveBullet b g).2.walls ↔ (q ∈ g.walls ∧ q ≠ stepPos b.Pos b.Dir)) ∧
    (interior (stepPos b.Pos b.Dir) → stepPos b.Pos b.Dir ∉ g.walls →
      (moveBullet b g).1 = { b with Pos := stepPos b.Pos b.Dir } ∧
      (moveBullet b g).2 = g) := by
  refine ⟨?_, ?_, ?_⟩
  · intro h
    have hb : outOfBounds (stepPos b.Pos b.Dir) = true := by
      rw [outOfBounds_iff]; unfold interior; simp only [Width, Height] at h ⊢; omega
    simp [moveBullet, hb]
  · intro hi hw
    have hb : outOfBounds (stepPos b.Pos b.Dir) = false := (outOfBounds_false_iff _).2 hi
    simp [moveBullet, hb, hasWall, hw, mem_deleteWall]
  · intro hi hw
    have hb : outOfBounds (stepPos b.Pos b.Dir) = false := (outOfBounds_false_iff _).2 hi
    simp [moveBullet, hb, hasWall, hw]

/-- Witness for C2: a bullet leaving through the left border, a bullet hitting
the wall cell (3, 5), and a bullet moving onto the free cell (2, 6). -/
theorem moveBullet_contract_witness :
    ((moveBullet ⟨⟨1, 5⟩, Direction.Left, true⟩ (seedG 0 [⟨3, 5⟩])).1.Active = false ∧
      (moveBullet ⟨⟨1, 5⟩, Direction.Left, true⟩ (seedG 0 [⟨3, 5⟩])).2.walls = [⟨3, 5⟩]) ∧
    ((moveBullet ⟨⟨2, 5⟩, Direction.Right, true⟩ (seedG 0 [⟨3, 5⟩])).1.Active = false ∧
      ∀ q, q ∈ (moveBullet ⟨⟨2, 5⟩, Direction.Right, true⟩ (seedG 0 [⟨3, 5⟩])).2.walls ↔
        (q ∈ [(⟨3, 5⟩ : Point)] ∧ q ≠ ⟨3, 5⟩)) ∧
    (moveBullet ⟨⟨2, 5⟩, Direction.Down, true⟩ (seedG 0 [⟨3, 5⟩])).1 =
      ⟨⟨2, 6⟩, Direction.Down, true⟩ :=
  ⟨⟨((moveBullet_contract ⟨⟨1, 5⟩, Direction.Left, true⟩ (seedG 0 [⟨3, 5⟩])).1 (by decide)).1,
     congrArg Game.walls
      ((moveBullet_contract ⟨⟨1, 5⟩, Direction.Left, true⟩ (seedG 0 [⟨3, 5⟩])).1 (by decide)).2⟩,
   ⟨((moveBullet_contract ⟨⟨2, 5⟩, Direction.Right, true⟩ (seedG 0 [⟨3, 5⟩])).2.1
        (by decide) (by decide)).1,
     ((moveBullet_contract ⟨⟨2, 5⟩, Direction.Right, true⟩ (seedG 0 [⟨3, 5⟩])).2.1
        (by decide) (by decide)).2.2⟩,
   ((moveBullet_contract ⟨⟨2, 5⟩, Direction.Down, true⟩ (seedG 0 [⟨3, 5⟩])).2.2
        (by decide) (by decide)).1⟩

/-- C10: `fireBullet` from `p` with heading `d`.  Onto a free interior cell:
exactly one bullet is appended, active, with heading `d`, on the cell one step
from `p` (never `p` itself), and nothing else changes.  Onto an interior wall
cell: no bullet is appended and exactly that wall cell is removed.  Outside
the interior: the state is unchanged.  In every case the score is unchanged
and the bullets listed before are still there, unchanged, at the front. -/
theorem fireBullet_contract (p : Point) (d : Direction) (g : Game) :
    (interior (stepPos p d) → stepPos p d ∉ g.walls →
      fireBullet p d g =
        { g with bullets := g.bullets ++ [{ Pos := stepPos p d, Dir := d, Active := true }] } ∧
      stepPos p d ≠ p) ∧
    (interior (stepPos p d) → stepPos p d ∈ g.walls →
      (fireBullet p d g).bullets = g.bullets ∧
      fireBullet p d g = { g with walls := (fireBullet p d g).walls } ∧
      ∀ q, q ∈ (fireBullet p d g).walls ↔ (q ∈ g.walls ∧ q ≠ stepPos p d)) ∧
    (¬ interior (stepPos p d) → fireBullet p d g = g) ∧
    (fireBullet p d g).score = g.score ∧
    (fireBullet p d g).bullets.take g.bullets.length = g.bullets := by
  by_cases hi : interior (stepPos p d)
  · have hb : outOfBounds (stepPos p d) = false := (outOfBounds_false_iff _).2 hi
    by_cases hw : stepPos p d ∈ g.walls
    · simp [fireBullet, moveBullet, hb, hasWall, hw, hi, mem_deleteWall]
    · simp [fireBullet, moveBullet, hb, hasWall, hw, hi, stepPos_ne]
  · have hb : outOfBounds (stepPos p d) = true := (outOfBounds_iff _).2 hi
    simp [fireBullet, moveBullet, hb, hi]

/-- Witness for C10: firing right from (2, 5) onto the free cell (3, 5), onto
the wall cell (3, 5), and firing left from (1, 5) into the border. -/
theorem fireBullet_contract_witness :
    (fireBullet ⟨2, 5⟩ Direction.Right (seedG 0 [])).bullets =
      [⟨⟨3, 5⟩, Direction.Right, true⟩] ∧
    ((fireBullet ⟨2, 5⟩ Direction.Right (seedG 0 [⟨3, 5⟩])).bullets = [] ∧
      ∀ q, q ∈ (fireBullet ⟨2, 5⟩ Direction.Right (seedG 0 [⟨3, 5⟩])).walls ↔
        (q ∈ [(⟨3, 5⟩ : Point)] ∧ q ≠ ⟨3, 5⟩)) ∧
    (fireBullet ⟨1, 5⟩ Direction.Left (seedG 0 [⟨3, 5⟩])).walls = [⟨3, 5⟩] :=
  ⟨congrArg Game.bullets
      ((fireBullet_contract ⟨2, 5⟩ Direction.Right (seedG 0 [])).1 (by decide) (by decide)).1,
   ⟨((fireBullet_contract ⟨2, 5⟩ Direction.Right (seedG 0 [⟨3, 5⟩])).2.1
        (by decide) (by decide)).1,
    ((fireBullet_contract ⟨2, 5⟩ Direction.Right (seedG 0 [⟨3, 5⟩])).2.1
        (by decide) (by decide)).2.2⟩,
   congrArg Game.walls
      ((fireBullet_contract ⟨1, 5⟩ Direction.Left (seedG 0 [⟨3, 5⟩])).2.2.1 (by decide))⟩

/-! ## Frame lemmas -/

theorem Frame_refl (g : Game) : Frame g g := ⟨rfl, rfl, rfl, rfl, rfl⟩

theorem Frame_trans {a b c : Game} (h1 : Frame a b) (h2 : Frame b c) : Frame a c := by
  obtain ⟨p1, e1, s1, o1, c1⟩ := h1
  obtain ⟨p2, e2, s2, o2, c2⟩ := h2
  exact ⟨p2.trans p1, e2.trans e1, s2.trans s1, o2.trans o1, c2.trans c1⟩

theorem Frame_of_rng (g : Game) (r : Rand) : Frame g { g with rng := r } :=
  ⟨rfl, rfl, rfl, rfl, rfl⟩

theorem tryMove_state (obj : Object) (g : Game) : (tryMove obj g).2.2 = g := by
  unfold tryMove; split_ifs <;> rfl

theorem moveBullet_frame (b : Bullet) (g : Game) : Frame g (moveBullet b g).2 := by
  unfold moveBullet; split_ifs <;> exact ⟨rfl, rfl, rfl, rfl, rfl⟩

theorem moveBullet_bullets (b : Bullet) (g : Game) : (moveBullet b g).2.bullets = g.bullets := by
  unfold moveBullet; split_ifs <;> rfl

theorem moveBullet_rng (b : Bullet) (g : Game) : (moveBullet b g).2.rng = g.rng := by
  unfold moveBullet; split_ifs <;> rfl

theorem fireBullet_frame (p : Point) (d : Direction) (g : Game) :
    Frame g (fireBullet p d g) := by
  unfold fireBullet
  split_ifs
  · exact moveBullet_frame _ g
  · exact moveBullet_frame _ g

theorem randomMove_frame (e : Object) (g : Game) : Frame g (randomMove e g).2 := by
  unfold randomMove
  rw [tryMove_state]
  exact Frame_of_rng g _

theorem enemyMove_frame (e : Object) (g : Game) : Frame g (enemyMove e g).2 := by
  unfold enemyMove
  split_ifs
  · exact Frame_trans (Frame_of_rng g _) (randomMove_frame _ _)
  · rw [tryMove_state]; exact Frame_of_rng g _
  · refine Frame_trans ?_ (randomMove_frame _ _)
    rw [tryMove_state]; exact Frame_of_rng g _

theorem enemyFire_frame (e : Object) (g : Game) : Frame g (enemyFire e g) := by
  unfold enemyFire
  split_ifs
  · exact Frame_trans (Frame_of_rng g _) (fireBullet_frame _ _ _)
  · exact Frame_of_rng g _
  · exact Frame_refl g

theorem updateEnemyAI_frame (e : Object) (g : Game) : Frame g (updateEnemyAI e g).2 :=
  Frame_trans (enemyMove_frame e g) (enemyFire_frame _ _)

theorem enemyTurn_frame (e : Object) (g : Game) : Frame g (enemyTurn e g).2 := by
  unfold enemyTurn
  split_ifs
  · exact Frame_trans (Frame_of_rng g _) (updateEnemyAI_frame _ _)
  · exact Frame_of_rng g _

theorem moveBullets_frame (bs : List Bullet) (g : Game) : Frame g (moveBullets bs g).2 := by
  induction bs generalizing g with
  | nil => exact Frame_refl g
  | cons b bs ih =>
    simp only [moveBullets]
    exact Frame_trans (moveBullet_frame b g) (ih _)

theorem bulletsPhase_frame (g : Game) : Frame g (bulletsPhase g) := by
  have h := moveBullets_frame g.bullets g
  exact ⟨h.1, h.2.1, h.2.2.1, h.2.2.2.1, h.2.2.2.2⟩

theorem playerPhase_fields (g : Game) :
    (playerPhase g).enemies = g.enemies ∧ (playerPhase g).score = g.score ∧
    (playerPhase g).isOver = g.isOver ∧ (playerPhase g).bullets = g.bullets ∧
    (playerPhase g).walls = g.walls ∧
    (playerPhase g).playerMoveCooldown =
      (if g.playerMoveCooldown ≤ 0 then PlayerMoveDelay else g.playerMoveCooldown - 1) := by
  unfold playerPhase
  split_ifs <;> simp [tryMove_state]

/-- The enemy loop keeps the player, the score and the cooldown, keeps the
length of the roster, and raises the over-flag exactly when an enemy ends its
turn on the player's cell. -/
theorem enemiesLoop_spec (es : List Object) (g : Game) :
    (enemiesLoop es g).2.player = g.player ∧
    (enemiesLoop es g).2.score = g.score ∧
    (enemiesLoop es g).2.playerMoveCooldown = g.playerMoveCooldown ∧
    (enemiesLoop es g).1.length = es.length ∧
    (enemiesLoop es g).2.isOver =
      (g.isOver || (enemiesLoop es g).1.any (fun e => decide (e.Pos = g.player.Pos))) := by
  induction es generalizing g with
  | nil => simp [enemiesLoop]
  | cons e es ih =>
    obtain ⟨hp, _, hs, ho, hc⟩ := enemyTurn_frame e g
    simp only [enemiesLoop, List.length_cons, List.any_cons]
    generalize hg2 : (if (enemyTurn e g).1.Pos = (enemyTurn e g).2.player.Pos then
        { (enemyTurn e g).2 with isOver := true } else (enemyTurn e g).2) = g2
    have f1 : g2.player = g.player := by
      rw [← hg2]; split_ifs <;> exact hp
    have f2 : g2.score = g.score := by
      rw [← hg2]; split_ifs <;> exact hs
    have f3 : g2.playerMoveCooldown = g.playerMoveCooldown := by
      rw [← hg2]; split_ifs <;> exact hc
    have f4 : g2.isOver = (g.isOver || decide ((enemyTurn e g).1.Pos = g.player.Pos)) := by
      rw [← hg2, ← hp]
      split_ifs with h
      · simp [h]
      · simp [h, ho]
    obtain ⟨i1, i2, i3, i4, i5⟩ := ih g2
    rw [i1, i2, i3, i4, i5, f1, f2, f3, f4, Bool.or_assoc]
    exact ⟨rfl, rfl, rfl, rfl, rfl⟩

theorem enemiesPhase_fields (g : Game) :
    (enemiesPhase g).player = g.player ∧ (enemiesPhase g).score = g.score ∧
    (enemiesPhase g).playerMoveCooldown = g.playerMoveCooldown ∧
    (enemiesPhase g).enemies.length = g.enemies.length ∧
    (enemiesPhase g).isOver =
      (g.isOver || (enemiesPhase g).enemies.any (fun e => decide (e.Pos = g.player.Pos))) :=
  enemiesLoop_spec g.enemies g

/-! ## The bullet-vs-enemy pass -/

theorem hitScan_true_iff (bs : List Bullet) (p : Point) :
    (hitScan bs p).1 = true ↔ ∃ b ∈ bs, b.Active = true ∧ b.Pos = p := by
  induction bs with
  | nil => simp [hitScan]
  | cons b bs ih =>
    unfold hitScan
    by_cases h : (b.Active && decide (b.Pos = p)) = true
    · simp only [h, if_true, true_iff]
      simp only [Bool.and_eq_true, decide_eq_true_eq] at h
      exact ⟨b, List.mem_cons_self _ _, h⟩
    · simp only [h, if_false, List.mem_cons, exists_eq_or_imp, ih]
      simp only [Bool.and_eq_true, decide_eq_true_eq] at h
      simp [h]
      exact ih

theorem hitScan_miss (bs : List Bullet) (p : Point)
    (h : ∀ b ∈ bs, ¬ (b.Active = true ∧ b.Pos = p)) : hitScan bs p = (false, bs) := by
  induction bs with
  | nil => rfl
  | cons b bs ih =>
    have hb : ¬ ((b.Active && decide (b.Pos = p)) = true) := by
      simpa using h b (List.mem_cons_self _ _)
    have ht := ih (fun c hc => h c (List.mem_cons_of_mem _ hc))
    unfold hitScan
    simp [hb, ht]

theorem hitScan_hit (pre post : List Bullet) (b : Bullet) (p : Point)
    (ha : b.Active = true) (hp : b.Pos = p)
    (h : ∀ c ∈ pre, ¬ (c.Active = true ∧ c.Pos = p)) :
    hitScan (pre ++ b :: post) p = (true, pre ++ { b with Active := false } :: post) := by
  induction pre with
  | nil => simp [hitScan, ha, hp]
  | cons c pre ih =>
    have hc : ¬ ((c.Active && decide (c.Pos = p)) = true) := by
      simpa using h c (List.mem_cons_self _ _)
    have ht := ih (fun d hd => h d (List.mem_cons_of_mem _ hd))
    simp only [List.cons_append]
    unfold hitScan
    simp [hc, ht]

theorem FlagsCleared_refl (bs : List Bullet) : FlagsCleared bs bs := by
  induction bs with
  | nil => exact List.Forall₂.nil
  | cons b bs ih => exact List.Forall₂.cons ⟨rfl, rfl, id⟩ ih

theorem FlagsCleared_trans {a b c : List Bullet} (h1 : FlagsCleared a b)
    (h2 : FlagsCleared b c) : FlagsCleared a c := by
  unfold FlagsCleared at *
  induction h1 generalizing c with
  | nil => cases h2; exact List.Forall₂.nil
  | cons hxy _ ih =>
    cases h2 with
    | cons hyz t2 =>
      exact List.Forall₂.cons
        ⟨hyz.1.trans hxy.1, hyz.2.1.trans hxy.2.1, fun h => hxy.2.2 (hyz.2.2 h)⟩ (ih t2)

/-- The inner loop changes nothing but one flag, and exactly one active bullet
fewer remains after a hit. -/
theorem hitScan_spec (bs : List Bullet) (p : Point) :
    FlagsCleared bs (hitScan bs p).2 ∧
    countActive (hitScan bs p).2 + (if (hitScan bs p).1 = true then 1 else 0) = countActive bs := by
  induction bs with
  | nil => exact ⟨List.Forall₂.nil, rfl⟩
  | cons b bs ih =>
    unfold hitScan
    by_cases h : (b.Active && decide (b.Pos = p)) = true
    · simp only [h, if_true]
      simp only [Bool.and_eq_true, decide_eq_true_eq] at h
      refine ⟨List.Forall₂.cons ⟨rfl, rfl, by simp⟩ (FlagsCleared_refl bs), ?_⟩
      simp [countActive, h.1]
    · simp only [h, if_false]
      refine ⟨List.Forall₂.cons ⟨rfl, rfl, id⟩ ih.1, ?_⟩
      have h2 := ih.2
      simp only [countActive] at h2 ⊢
      cases hb : b.Active <;> simp [List.filter_cons, hb] <;> omega

/-- The outer loop: what it keeps, and how its counts are tied together. -/
theorem collideLoop_spec (es : List Object) (g : Game) :
    (collideLoop es g).2.player = g.player ∧
    (collideLoop es g).2.isOver = g.isOver ∧
    (collideLoop es g).2.playerMoveCooldown = g.playerMoveCooldown ∧
    (collideLoop es g).2.walls = g.walls ∧
    (collideLoop es g).2.rng = g.rng ∧
    (collideLoop es g).1.Sublist es ∧
    (collideLoop es g).1.length + countActive g.bullets =
      es.length + countActive (collideLoop es g).2.bullets ∧
    (collideLoop es g).2.score + 100 * ((collideLoop es g).1.length : Int) =
      g.score + 100 * (es.length : Int) ∧
    FlagsCleared g.bullets (collideLoop es g).2.bullets := by
  induction es generalizing g with
  | nil => simp [collideLoop, FlagsCleared_refl]
  | cons e es ih =>
    obtain ⟨hf, hc⟩ := hitScan_spec g.bullets e.Pos
    simp only [collideLoop]
    by_cases h : (hitScan g.bullets e.Pos).1 = true
    · obtain ⟨i1, i2, i3, i4, i5, i6, i7, i8, i9⟩ :=
        ih { g with bullets := (hitScan g.bullets e.Pos).2, score := g.score + 100 }
      simp only [h, if_true] at hc ⊢
      refine ⟨i1, i2, i3, i4, i5, List.Sublist.cons _ i6, ?_, ?_, FlagsCleared_trans hf i9⟩
      · simp only [List.length_cons] at i7 ⊢; omega
      · simp only [List.length_cons] at i8 ⊢; push_cast; omega
    · obtain ⟨i1, i2, i3, i4, i5, i6, i7, i8, i9⟩ := ih g
      simp only [h, Bool.false_eq_true, if_false] at hc ⊢
      refine ⟨i1, i2, i3, i4, i5, List.Sublist.cons₂ _ i6, ?_, ?_, i9⟩
      · simp only [List.length_cons] at i7 ⊢; omega
      · simp only [List.length_cons] at i8 ⊢; push_cast; omega

theorem collideLoop_noHit (es : List Object) (g : Game)
    (h : ∀ e ∈ es, ∀ b ∈ g.bullets, ¬ (b.Active = true ∧ b.Pos = e.Pos)) :
    collideLoop es g = (es, g) := by
  induction es with
  | nil => rfl
  | cons e es ih =>
    have h1 := hitScan_miss g.bullets e.Pos (h e (List.mem_cons_self _ _))
    have h2 := ih (fun e' he' => h e' (List.mem_cons_of_mem _ he'))
    simp only [collideLoop]
    simp [h1, h2]

theorem collideLoop_append (l1 l2 : List Object) (g : Game)
    (h : ∀ e ∈ l1, ∀ b ∈ g.bullets, ¬ (b.Active = true ∧ b.Pos = e.Pos)) :
    collideLoop (l1 ++ l2) g = (l1 ++ (collideLoop l2 g).1, (collideLoop l2 g).2) := by
  induction l1 with
  | nil => rfl
  | cons e es ih =>
    have h1 := hitScan_miss g.bullets e.Pos (h e (List.mem_cons_self _ _))
    have h2 := ih (fun e' he' => h e' (List.mem_cons_of_mem _ he'))
    simp only [List.cons_append]
    simp only [collideLoop]
    simp [h1, h2]

/-! ## The remaining phases of a tick -/

theorem collidePhase_fields (g : Game) :
    (collidePhase g).player = g.player ∧ (collidePhase g).isOver = g.isOver ∧
    (collidePhase g).playerMoveCooldown = g.playerMoveCooldown ∧
    (collidePhase g).walls = g.walls ∧
    (collidePhase g).enemies.length ≤ g.enemies.length ∧
    (collidePhase g).score =
      g.score + 100 * ((g.enemies.length - (collidePhase g).enemies.length : Nat) : Int) := by
  obtain ⟨i1, i2, i3, i4, _, i6, _, i8, _⟩ := collideLoop_spec g.enemies g
  have hle := i6.length_le
  refine ⟨i1, i2, i3, i4, hle, ?_⟩
  show (collideLoop g.enemies g).2.score = _
  have hc : ((g.enemies.length - (collideLoop g.enemies g).1.length : Nat) : Int) =
      (g.enemies.length : Int) - ((collideLoop g.enemies g).1.length : Int) := by
    omega
  show _ = g.score + 100 * ((g.enemies.length - (collideLoop g.enemies g).1.length : Nat) : Int)
  rw [hc]
  omega

theorem playerHitLoop_spec (bs : List Bullet) (g : Game) :
    playerHitLoop bs g =
      { g with isOver := g.isOver ||
          bs.any (fun b => b.Active && decide (b.Pos = g.player.Pos)) } := by
  induction bs generalizing g with
  | nil => simp [playerHitLoop]
  | cons b bs ih =>
    simp only [playerHitLoop, List.any_cons]
    rw [ih]
    split_ifs with h
    · simp [h]
    · have h2 : (b.Active && decide (b.Pos = g.player.Pos)) = false := by simpa using h
      simp [h2]

theorem respawnPhase_fields (g : Game) :
    (respawnPhase g).player = g.player ∧ (respawnPhase g).score = g.score ∧
    (respawnPhase g).isOver = g.isOver ∧
    (respawnPhase g).playerMoveCooldown = g.playerMoveCooldown ∧
    (respawnPhase g).bullets = g.bullets ∧ (respawnPhase g).walls = g.walls := by
  unfold respawnPhase
  split_ifs <;> simp [spawnEnemy]

theorem beforePass_fields (g : Game) :
    (beforePass g).player = (playerPhase (bulletsPhase g)).player ∧
    (beforePass g).score = g.score ∧
    (beforePass g).enemies.length = g.enemies.length ∧
    (beforePass g).playerMoveCooldown =
      (if g.playerMoveCooldown ≤ 0 then PlayerMoveDelay else g.playerMoveCooldown - 1) ∧
    (beforePass g).isOver =
      (g.isOver || (beforePass g).enemies.any
        (fun e => decide (e.Pos = (playerPhase (bulletsPhase g)).player.Pos))) := by
  obtain ⟨_, be, bs, bo, bc⟩ := bulletsPhase_frame g
  obtain ⟨pe, ps, po, _, _, pc⟩ := playerPhase_fields (bulletsPhase g)
  obtain ⟨ep, es, ec, el, eo⟩ := enemiesPhase_fields (playerPhase (bulletsPhase g))
  unfold beforePass
  refine ⟨ep, ?_, ?_, ?_, ?_⟩
  · rw [es, ps, bs]
  · rw [el, pe, be]
  · rw [ec, pc, bc]
  · rw [eo, po, bo]

theorem updateState_eq (g : Game) :
    updateState g = respawnPhase (playerHitPhase (afterPass g)) := rfl

theorem updateState_fields (g : Game) :
    (updateState g).player = (playerPhase (bulletsPhase g)).player ∧
    (updateState g).score =
      g.score + 100 * (((beforePass g).enemies.length - (afterPass g).enemies.length : Nat) : Int) ∧
    (updateState g).playerMoveCooldown =
      (if g.playerMoveCooldown ≤ 0 then PlayerMoveDelay else g.playerMoveCooldown - 1) ∧
    (updateState g).isOver =
      (g.isOver ||
        (beforePass g).enemies.any
          (fun e => decide (e.Pos = (playerPhase (bulletsPhase g)).player.Pos)) ||
        (afterPass g).bullets.any
          (fun b => b.Active && decide (b.Pos = (playerPhase (bulletsPhase g)).player.Pos))) := by
  obtain ⟨b1, b2, _, b4, b5⟩ := beforePass_fields g
  obtain ⟨c1, c2, c3, _, _, c6⟩ := collidePhase_fields (beforePass g)
  obtain ⟨r1, r2, r3, r4, _, _⟩ := respawnPhase_fields (playerHitPhase (afterPass g))
  have hh := playerHitLoop_spec (afterPass g).bullets (afterPass g)
  rw [updateState_eq]
  refine ⟨?_, ?_, ?_, ?_⟩
  · rw [r1]; unfold playerHitPhase; rw [hh]; show (afterPass g).player = _
    unfold afterPass; rw [c1, b1]
  · rw [r2]; unfold playerHitPhase; rw [hh]; show (afterPass g).score = _
    unfold afterPass; rw [c6, b2]
  · rw [r4]; unfold playerHitPhase; rw [hh]; show (afterPass g).playerMoveCooldown = _
    unfold afterPass; rw [c3, b4]
  · rw [r3]; unfold playerHitPhase; rw [hh]
    show ((afterPass g).isOver || _) = _
    have e1 : (afterPass g).isOver = (beforePass g).isOver := c2
    have e2 : (afterPass g).player = (playerPhase (bulletsPhase g)).player := by
      unfold afterPass; rw [c1, b1]
    rw [e1, e2, b5]

/-! ## C3, C4, C5: collisions, score and game-over -/

/-- C3: the bullet-vs-enemy pass handles the enemies in list order.  An enemy
at the head of the remaining list is kept, and no bullet touched, when no
active bullet has its position; otherwise it is removed, the first active
bullet on its cell (and no other) is deactivated and the score grows by 100.
The pass removes as many enemies as it deactivates bullets, never raises a
flag or moves a bullet, keeps the survivors in order, and adds 100 per removed
enemy.  When one enemy shares its cell with one active bullet and no other
enemy is hit, exactly that enemy disappears, the score rises by 100 and that
bullet is deactivated. -/
theorem bulletEnemyPass_contract (g : Game) :
    (∀ e es, (∀ b ∈ g.bullets, ¬ (b.Active = true ∧ b.Pos = e.Pos)) →
      collideLoop (e :: es) g = (e :: (collideLoop es g).1, (collideLoop es g).2)) ∧
    (∀ e es pre b post, g.bullets = pre ++ b :: post → b.Active = true → b.Pos = e.Pos →
      (∀ c ∈ pre, ¬ (c.Active = true ∧ c.Pos = e.Pos)) →
      collideLoop (e :: es) g =
        collideLoop es
          { g with bullets := pre ++ { b with Active := false } :: post,
                   score := g.score + 100 }) ∧
    ((collidePhase g).enemies.Sublist g.enemies ∧
      FlagsCleared g.bullets (collidePhase g).bullets ∧
      (collidePhase g).enemies.length ≤ g.enemies.length ∧
      countActive (collidePhase g).bullets ≤ countActive g.bullets ∧
      countActive g.bullets - countActive (collidePhase g).bullets =
        g.enemies.length - (collidePhase g).enemies.length ∧
      (collidePhase g).score =
        g.score + 100 * ((g.enemies.length - (collidePhase g).enemies.length : Nat) : Int)) ∧
    (∀ l1 e l2 pre b post, g.enemies = l1 ++ e :: l2 → g.bullets = pre ++ b :: post →
      b.Active = true → b.Pos = e.Pos →
      (∀ c ∈ pre ++ post, ¬ (c.Active = true ∧ c.Pos = e.Pos)) →
      (∀ e' ∈ l1 ++ l2, ∀ c ∈ g.bullets, ¬ (c.Active = true ∧ c.Pos = e'.Pos)) →
      (collidePhase g).enemies = l1 ++ l2 ∧
      (collidePhase g).enemies.length + 1 = g.enemies.length ∧
      (collidePhase g).score = g.score + 100 ∧
      (collidePhase g).bullets = pre ++ { b with Active := false } :: post) := by
  refine ⟨?_, ?_, ?_, ?_⟩
  · intro e es h
    simp only [collideLoop]
    rw [hitScan_miss g.bullets e.Pos h]
    simp
  · intro e es pre b post hb ha hp hpre
    simp only [collideLoop]
    rw [hb, hitScan_hit pre post b e.Pos ha hp hpre]
    simp
  · obtain ⟨_, _, _, _, _, i6, i7, _, i9⟩ := collideLoop_spec g.enemies g
    obtain ⟨_, _, _, _, c5, c6⟩ := collidePhase_fields g
    have hle := i6.length_le
    refine ⟨i6, i9, c5, ?_, ?_, c6⟩
    · show countActive (collideLoop g.enemies g).2.bullets ≤ _
      omega
    · show _ - countActive (collideLoop g.enemies g).2.bullets =
        _ - (collideLoop g.enemies g).1.length
      omega
  · intro l1 e l2 pre b post he hb ha hp hothers hrest
    have h1 : ∀ e' ∈ l1, ∀ c ∈ g.bullets, ¬ (c.Active = true ∧ c.Pos = e'.Pos) :=
      fun e' he' => hrest e' (List.mem_append_left _ he')
    have hpre : ∀ c ∈ pre, ¬ (c.Active = true ∧ c.Pos = e.Pos) :=
      fun c hc => hothers c (List.mem_append_left _ hc)
    have h2 : ∀ e' ∈ l2, ∀ c ∈ pre ++ { b with Active := false } :: post,
        ¬ (c.Active = true ∧ c.Pos = e'.Pos) := by
      intro e' he' c hc
      rcases List.mem_append.1 hc with hc | hc
      · exact hrest e' (List.mem_append_right _ he') c (by rw [hb]; simp [hc])
      · rcases List.mem_cons.1 hc with hc | hc
        · subst hc; simp
        · exact hrest e' (List.mem_append_right _ he') c (by rw [hb]; simp [hc])
    have key : collideLoop g.enemies g =
        (l1 ++ l2, { g with bullets := pre ++ { b with Active := false } :: post,
                            score := g.score + 100 }) := by
      have a := collideLoop_append l1 (e :: l2) g h1
      rw [← he] at a
      rw [a]
      simp only [collideLoop]
      rw [hb, hitScan_hit pre post b e.Pos ha hp hpre]
      simp only [if_true]
      rw [collideLoop_noHit l2 _ h2]
    unfold collidePhase
    rw [key, he]
    simp
    omega

/-- Witness for C3: an enemy at (18, 5) with the only bullet elsewhere is kept;
with the only bullet, active, on its cell it is removed, the bullet is
deactivated and the score goes from 0 to 100. -/
theorem bulletEnemyPass_contract_witness :
    (collideLoop [⟨⟨18, 5⟩, Direction.Left, 7⟩]
        (quietG 1 [] [⟨⟨17, 5⟩, Direction.Right, true⟩] [])).1 =
      [⟨⟨18, 5⟩, Direction.Left, 7⟩] ∧
    (collideLoop [⟨⟨18, 5⟩, Direction.Left, 7⟩]
        (quietG 1 [] [⟨⟨18, 5⟩, Direction.Right, true⟩] [])).1 = [] ∧
    ((collidePhase (quietG 1 [⟨⟨18, 5⟩, Direction.Left, 7⟩]
        [⟨⟨18, 5⟩, Direction.Right, true⟩] [])).enemies = [] ∧
      (collidePhase (quietG 1 [⟨⟨18, 5⟩, Direction.Left, 7⟩]
        [⟨⟨18, 5⟩, Direction.Right, true⟩] [])).score = 0 + 100 ∧
      (collidePhase (quietG 1 [⟨⟨18, 5⟩, Direction.Left, 7⟩]
        [⟨⟨18, 5⟩, Direction.Right, true⟩] [])).bullets =
        [⟨⟨18, 5⟩, Direction.Right, false⟩]) :=
  ⟨congrArg Prod.fst
      ((bulletEnemyPass_contract (quietG 1 [] [⟨⟨17, 5⟩, Direction.Right, true⟩] [])).1
        ⟨⟨18, 5⟩, Direction.Left, 7⟩ [] (by decide)),
   congrArg Prod.fst
      ((bulletEnemyPass_contract (quietG 1 [] [⟨⟨18, 5⟩, Direction.Right, true⟩] [])).2.1
        ⟨⟨18, 5⟩, Direction.Left, 7⟩ [] [] ⟨⟨18, 5⟩, Direction.Right, true⟩ []
        rfl rfl rfl (by decide)),
   ((bulletEnemyPass_contract (quietG 1 [⟨⟨18, 5⟩, Direction.Left, 7⟩]
        [⟨⟨18, 5⟩, Direction.Right, true⟩] [])).2.2.2
      [] ⟨⟨18, 5⟩, Direction.Left, 7⟩ [] [] ⟨⟨18, 5⟩, Direction.Right, true⟩ []
      rfl rfl rfl rfl (by decide) (by decide)).1,
   ((bulletEnemyPass_contract (quietG 1 [⟨⟨18, 5⟩, Direction.Left, 7⟩]
        [⟨⟨18, 5⟩, Direction.Right, true⟩] [])).2.2.2
      [] ⟨⟨18, 5⟩, Direction.Left, 7⟩ [] [] ⟨⟨18, 5⟩, Direction.Right, true⟩ []
      rfl rfl rfl rfl (by decide) (by decide)).2.2.1,
   ((bulletEnemyPass_contract (quietG 1 [⟨⟨18, 5⟩, Direction.Left, 7⟩]
        [⟨⟨18, 5⟩, Direction.Right, true⟩] [])).2.2.2
      [] ⟨⟨18, 5⟩, Direction.Left, 7⟩ [] [] ⟨⟨18, 5⟩, Direction.Right, true⟩ []
      rfl rfl rfl rfl (by decide) (by decide)).2.2.2⟩

/-- C4: one tick changes the score by exactly 100 times the number of enemies
removed by its bullet-vs-enemy pass (the roster entering the pass has the
length of the roster at the start of the tick); so the score never decreases,
moves by a multiple of 100 and stays put when the pass removes nobody.
`handleInput`, `tryMove`, `moveBullet`, `fireBullet` and `spawnEnemy` leave the
score alone. -/
theorem score_accounting (g : Game) :
    (updateState g).score =
      g.score + 100 * (((beforePass g).enemies.length - (afterPass g).enemies.length : Nat) : Int) ∧
    (beforePass g).enemies.length = g.enemies.length ∧
    (afterPass g).enemies.length ≤ (beforePass g).enemies.length ∧
    g.score ≤ (updateState g).score ∧
    (100 : Int) ∣ (updateState g).score - g.score ∧
    ((afterPass g).enemies.length = (beforePass g).enemies.length →
      (updateState g).score = g.score) ∧
    (∀ k, (handleInput k g).score = g.score) ∧
    (∀ obj, (tryMove obj g).2.2.score = g.score) ∧
    (∀ b, (moveBullet b g).2.score = g.score) ∧
    (∀ p d, (fireBullet p d g).score = g.score) ∧
    (spawnEnemy g).score = g.score := by
  obtain ⟨_, hs, _, _⟩ := updateState_fields g
  obtain ⟨_, _, hl, _, _⟩ := beforePass_fields g
  obtain ⟨_, _, _, _, hle, _⟩ := collidePhase_fields (beforePass g)
  refine ⟨hs, hl, hle, ?_, ?_, ?_, ?_, ?_, ?_, ?_, rfl⟩
  · rw [hs]; omega
  · rw [hs, add_sub_cancel_left]; exact dvd_mul_right _ _
  · intro h
    rw [hs, h]; simp
  · intro k
    cases k <;> first | rfl | exact (fireBullet_frame _ _ g).2.2.1
  · intro obj; rw [tryMove_state]
  · intro b; exact (moveBullet_frame b g).2.2.1
  · intro p d; exact (fireBullet_frame p d g).2.2.1

/-- Witness for C4: a tick of a state without enemies removes nobody and the
score stays 0. -/
theorem score_accounting_witness :
    (updateState (quietG 0 [] [] [])).score = 0 :=
  (score_accounting (quietG 0 [] [] [])).2.2.2.2.2.1 (by decide)

/-- C5: from a state whose over-flag is clear, a tick sets the flag exactly
when some enemy, after the movement phase, stands on the player's cell, or
some bullet still active after the bullet-vs-enemy pass lies on the player's
cell; the player's cell is the one reached by the player phase of the tick. -/
theorem gameOver_trigger (g : Game) (h : g.isOver = false) :
    ((updateState g).isOver = true ↔
      ((∃ e ∈ (beforePass g).enemies, e.Pos = (updateState g).player.Pos) ∨
       (∃ b ∈ (afterPass g).bullets, b.Active = true ∧ b.Pos = (updateState g).player.Pos))) ∧
    (updateState g).player = (playerPhase (bulletsPhase g)).player := by
  obtain ⟨hp, _, _, ho⟩ := updateState_fields g
  refine ⟨?_, hp⟩
  rw [ho, hp, h]
  simp

/-- Witness for C5: the player at (2, 10) steps right onto an idle enemy at
(3, 10) and the tick ends the session. -/
theorem gameOver_trigger_witness :
    (quietG 0 [⟨⟨3, 10⟩, Direction.Left, 7⟩] [] []).isOver = false ∧
    (updateState (quietG 0 [⟨⟨3, 10⟩, Direction.Left, 7⟩] [] [])).isOver = true :=
  ⟨rfl, (gameOver_trigger (quietG 0 [⟨⟨3, 10⟩, Direction.Left, 7⟩] [] []) rfl).1.2
    (Or.inl ⟨⟨⟨3, 10⟩, Direction.Left, 7⟩, by decide, by decide⟩)⟩

/-! ## C6: session set-up -/

theorem Intn_range (r : Rand) (n : Int) (hn : 0 < n) :
    0 ≤ (r.Intn n).1 ∧ (r.Intn n).1 < n := by
  unfold Rand.Intn
  exact ⟨Int.emod_nonneg _ (by omega), Int.emod_lt_of_pos _ hn⟩

/-- The random-wall loop touches only the walls and the random source, and
every wall it adds lies in the wall region. -/
theorem generateWallsLoop_spec (n : Nat) (g : Game) :
    (generateWallsLoop n g).player = g.player ∧
    (generateWallsLoop n g).enemies = g.enemies ∧
    (generateWallsLoop n g).bullets = g.bullets ∧
    (generateWallsLoop n g).score = g.score ∧
    (generateWallsLoop n g).isOver = g.isOver ∧
    (generateWallsLoop n g).playerMoveCooldown = g.playerMoveCooldown ∧
    ((∀ p ∈ g.walls, wallRegion p) → ∀ p ∈ (generateWallsLoop n g).walls, wallRegion p) := by
  induction n generalizing g with
  | zero => exact ⟨rfl, rfl, rfl, rfl, rfl, rfl, fun h => h⟩
  | succ n ih =>
    simp only [generateWallsLoop]
    have hx := Intn_range g.rng (Width - 2) (by decide)
    have hy := Intn_range (g.rng.Intn (Width - 2)).2 (Height - 2) (by decide)
    split_ifs with h
    · obtain ⟨i1, i2, i3, i4, i5, i6, i7⟩ :=
        ih { g with rng := ((g.rng.Intn (Width - 2)).2.Intn (Height - 2)).2 }
      exact ⟨i1, i2, i3, i4, i5, i6, i7⟩
    · obtain ⟨i1, i2, i3, i4, i5, i6, i7⟩ :=
        ih { g with
          rng := ((g.rng.Intn (Width - 2)).2.Intn (Height - 2)).2,
          walls := setWall g.walls
            { X := (g.rng.Intn (Width - 2)).1 + 1,
              Y := ((g.rng.Intn (Width - 2)).2.Intn (Height - 2)).1 + 1 } }
      refine ⟨i1, i2, i3, i4, i5, i6, fun hw => i7 ?_⟩
      intro p hp
      rcases (mem_setWall _ _ _).1 hp with rfl | hp
      · unfold wallRegion
        simp only [Width, Height] at hx hy h ⊢
        omega
      · exact hw p hp

theorem midWall_foldl (l : List Nat) (w : Walls) (q : Point)
    (hq : q ∈ l.foldl
      (fun (acc : Walls) (i : Nat) => setWall acc { X := Width / 2, Y := 5 + (i : Int) }) w) :
    q ∈ w ∨ ∃ i ∈ l, q = { X := Width / 2, Y := 5 + (i : Int) } := by
  induction l generalizing w with
  | nil => exact Or.inl hq
  | cons a l ih =>
    rw [List.foldl_cons] at hq
    rcases ih _ hq with h | ⟨i, hi, rfl⟩
    · rcases (mem_setWall _ _ _).1 h with rfl | h
      · exact Or.inr ⟨a, List.mem_cons_self _ _, rfl⟩
      · exact Or.inl h
    · exact Or.inr ⟨i, List.mem_cons_of_mem _ hi, rfl⟩

theorem midWallLoop_region (w : Walls) (h : ∀ p ∈ w, wallRegion p) :
    ∀ p ∈ midWallLoop w, wallRegion p := by
  intro p hp
  rcases midWall_foldl _ _ _ hp with hp | ⟨i, hi, rfl⟩
  · exact h p hp
  · have hi2 : i < 10 := List.mem_range.1 hi
    unfold wallRegion
    simp only [Width, Height]
    omega

theorem generateWalls_spec (g : Game) :
    (generateWalls g).player = g.player ∧
    (generateWalls g).enemies = g.enemies ∧
    (generateWalls g).bullets = g.bullets ∧
    (generateWalls g).score = g.score ∧
    (generateWalls g).isOver = g.isOver ∧
    (generateWalls g).playerMoveCooldown = g.playerMoveCooldown ∧
    ((∀ p ∈ g.walls, wallRegion p) → ∀ p ∈ (generateWalls g).walls, wallRegion p) := by
  have h := generateWallsLoop_spec 40 g
  unfold generateWalls
  revert h
  generalize generateWallsLoop 40 g = G
  rintro ⟨i1, i2, i3, i4, i5, i6, i7⟩
  dsimp only
  exact ⟨i1, i2, i3, i4, i5, i6, fun h => midWallLoop_region G.walls (i7 h)⟩

/-- The fields of a freshly initialised session. -/
theorem initGame_fields (g : Game) :
    (initGame g).enemies.length = 3 ∧
    (initGame g).bullets = [] ∧
    (initGame g).score = 0 ∧
    (initGame g).isOver = false ∧
    (initGame g).playerMoveCooldown = 0 ∧
    (initGame g).player.Pos = { X := 2, Y := Height / 2 } ∧
    (initGame g).player.Pos = { X := 2, Y := 10 } ∧
    (initGame g).player.Dir = Direction.Right ∧
    (initGame g).player.Pos ∉ (initGame g).walls := by
  have e : initGame g = spawnEnemy (spawnEnemy (spawnEnemy (generateWalls
      { player := { Pos := { X := 2, Y := Height / 2 }, Dir := Direction.Right, id := 0 },
        enemies := [], bullets := [], walls := [], score := 0, isOver := false,
        playerMoveCooldown := 0, rng := g.rng }))) := rfl
  obtain ⟨i1, i2, i3, i4, i5, i6, i7⟩ := generateWalls_spec
    { player := { Pos := { X := 2, Y := Height / 2 }, Dir := Direction.Right, id := 0 },
      enemies := [], bullets := [], walls := [], score := 0, isOver := false,
      playerMoveCooldown := 0, rng := g.rng }
  have hw := i7 (by simp)
  rw [e]
  generalize generateWalls
    { player := { Pos := { X := 2, Y := Height / 2 }, Dir := Direction.Right, id := 0 },
      enemies := [], bullets := [], walls := [], score := 0, isOver := false,
      playerMoveCooldown := 0, rng := g.rng } = G at *
  have h10 : Height / 2 = 10 := by decide
  simp only [spawnEnemy, i1, i2, i3, i4, i5, i6, h10]
  refine ⟨by simp, trivial, trivial, trivial, trivial, trivial, trivial, trivial, ?_⟩
  intro hmem
  have := (hw _ hmem).1
  simp at this

/-- C6: whatever the previous state and the random draws, `initGame` yields
exactly 3 enemies, no bullet, score 0, a clear over-flag, cooldown 0 and the
player at (2, Height/2) = (2, 10) heading right, on a cell that is not a wall of
the new wall set. -/
theorem initGame_restart (g : Game) :
    (initGame g).enemies.length = 3 ∧
    (initGame g).bullets = [] ∧
    (initGame g).score = 0 ∧
    (initGame g).isOver = false ∧
    (initGame g).playerMoveCooldown = 0 ∧
    (initGame g).player.Pos = { X := 2, Y := Height / 2 } ∧
    (initGame g).player.Pos = { X := 2, Y := 10 } ∧
    (initGame g).player.Dir = Direction.Right ∧
    (initGame g).player.Pos ∉ (initGame g).walls :=
  initGame_fields g

/-! ## C7, C8, C9: evaluations of the program -/

set_option maxRecDepth 100000 in
/-- C7 (evaluation): when the random walls include (38, 18) and the spawn row
drawn is 18, `spawnEnemy` nudges the row to 19 = Height-1, so a state produced
by `initGame` holds enemies on the border ring, outside the interior. -/
theorem spawnEnemy_on_border :
    Reachable (initGame (seedG 341 [])) ∧
    (⟨38, 18⟩ : Point) ∈ (initGame (seedG 341 [])).walls ∧
    (initGame (seedG 341 [])).enemies.map (fun e => e.Pos) =
      [⟨38, 19⟩, ⟨38, 19⟩, ⟨38, 19⟩] ∧
    ∃ e ∈ (initGame (seedG 341 [])).enemies, ¬ interior e.Pos := by
  refine ⟨Reachable.init _, by decide, by decide, ?_⟩
  exact ⟨⟨⟨38, 19⟩, Direction.Left, 341⟩, by decide, by decide⟩

/-- C8 (evaluation): a bullet at (17, 5) heading right kills the enemy at
(18, 5) on the first tick and stays in the list, deactivated.  On the next
tick it is moved once more and destroys the wall at (19, 5); with the inactive
bullet removed from the list the same tick leaves that wall standing. -/
theorem inactive_bullet_destroys_wall :
    (updateState (quietG 1 [⟨⟨18, 5⟩, Direction.Left, 7⟩]
      [⟨⟨17, 5⟩, Direction.Right, true⟩] [⟨19, 5⟩])).bullets =
        [⟨⟨18, 5⟩, Direction.Right, false⟩] ∧
    (updateState (quietG 1 [⟨⟨18, 5⟩, Direction.Left, 7⟩]
      [⟨⟨17, 5⟩, Direction.Right, true⟩] [⟨19, 5⟩])).enemies = [] ∧
    (updateState (quietG 1 [⟨⟨18, 5⟩, Direction.Left, 7⟩]
      [⟨⟨17, 5⟩, Direction.Right, true⟩] [⟨19, 5⟩])).walls = [⟨19, 5⟩] ∧
    (updateState (updateState (quietG 1 [⟨⟨18, 5⟩, Direction.Left, 7⟩]
      [⟨⟨17, 5⟩, Direction.Right, true⟩] [⟨19, 5⟩]))).walls = [] ∧
    (updateState
      { updateState (quietG 1 [⟨⟨18, 5⟩, Direction.Left, 7⟩]
          [⟨⟨17, 5⟩, Direction.Right, true⟩] [⟨19, 5⟩]) with bullets := [] }).walls =
        [⟨19, 5⟩] := by
  refine ⟨by decide, by decide, by decide, by decide, by decide⟩

theorem handleInput_cooldown (k : Key) (g : Game) :
    (handleInput k g).playerMoveCooldown = g.playerMoveCooldown := by
  cases k <;> first | rfl | exact (fireBullet_frame _ _ g).2.2.2.2

theorem updateState_player_idle (g : Game) (h : 0 < g.playerMoveCooldown) :
    (updateState g).player = g.player := by
  obtain ⟨hp, _, _, _⟩ := updateState_fields g
  obtain ⟨bp, _, _, _, bc⟩ := bulletsPhase_frame g
  rw [hp]
  unfold playerPhase
  rw [bc, if_neg (by omega)]
  exact bp

/-- C9 (evaluation): after `initGame` the player attempts a move on tick 1
(cooldown 0).  The cooldown is then 2 before tick 2 and 1 before tick 3, and on
both ticks the player is left as it was; it is 0 again only before tick 4.  The
attempts are 3 ticks apart, not 2.  Key events never change the cooldown. -/
theorem player_move_period (g0 : Game) :
    (initGame g0).playerMoveCooldown = 0 ∧
    (updateState (initGame g0)).playerMoveCooldown = 2 ∧
    (updateState (updateState (initGame g0))).playerMoveCooldown = 1 ∧
    (updateState (updateState (updateState (initGame g0)))).playerMoveCooldown = 0 ∧
    (updateState (updateState (initGame g0))).player = (updateState (initGame g0)).player ∧
    (updateState (updateState (updateState (initGame g0)))).player =
      (updateState (updateState (initGame g0))).player ∧
    (∀ k g, (handleInput k g).playerMoveCooldown = g.playerMoveCooldown) := by
  have h0 : (initGame g0).playerMoveCooldown = 0 := (initGame_fields g0).2.2.2.2.1
  have step : ∀ g, (updateState g).playerMoveCooldown =
      (if g.playerMoveCooldown ≤ 0 then PlayerMoveDelay else g.playerMoveCooldown - 1) :=
    fun g => (updateState_fields g).2.2.1
  have h1 : (updateState (initGame g0)).playerMoveCooldown = 2 := by
    rw [step, h0]; rfl
  have h2 : (updateState (updateState (initGame g0))).playerMoveCooldown = 1 := by
    rw [step, h1]; rfl
  have h3 : (updateState (updateState (updateState (initGame g0)))).playerMoveCooldown = 0 := by
    rw [step, h2]; rfl
  exact ⟨h0, h1, h2, h3, updateState_player_idle _ (by omega),
    updateState_player_idle _ (by omega), handleInput_cooldown⟩

/-! ## The wall set only shrinks -/

theorem moveBullet_walls (b : Bullet) (g : Game) : (moveBullet b g).2.walls ⊆ g.walls := by
  unfold moveBullet
  split_ifs
  · exact List.Subset.refl _
  · exact fun q hq => ((mem_deleteWall _ _ q).1 hq).1
  · exact List.Subset.refl _

theorem moveBullets_walls (bs : List Bullet) (g : Game) :
    (moveBullets bs g).2.walls ⊆ g.walls := by
  induction bs generalizing g with
  | nil => exact List.Subset.refl _
  | cons b bs ih =>
    simp only [moveBullets]
    exact List.Subset.trans (ih _) (moveBullet_walls b g)

theorem fireBullet_walls (p : Point) (d : Direction) (g : Game) :
    (fireBullet p d g).walls ⊆ g.walls := by
  unfold fireBullet
  split_ifs
  · exact moveBullet_walls _ g
  · exact moveBullet_walls _ g

theorem randomMove_walls (e : Object) (g : Game) : (randomMove e g).2.walls = g.walls := by
  unfold randomMove
  rw [tryMove_state]

theorem enemyMove_walls (e : Object) (g : Game) : (enemyMove e g).2.walls = g.walls := by
  unfold enemyMove
  split_ifs
  · rw [randomMove_walls]
  · rw [tryMove_state]
  · rw [randomMove_walls, tryMove_state]

theorem enemyFire_walls (e : Object) (g : Game) : (enemyFire e g).walls ⊆ g.walls := by
  unfold enemyFire
  split_ifs
  · exact fireBullet_walls _ _ _
  · exact List.Subset.refl _
  · exact List.Subset.refl _

theorem updateEnemyAI_walls (e : Object) (g : Game) :
    (updateEnemyAI e g).2.walls ⊆ g.walls := by
  unfold updateEnemyAI
  have h := enemyFire_walls (enemyMove e g).1 (enemyMove e g).2
  rw [enemyMove_walls] at h
  exact h

theorem enemyTurn_walls (e : Object) (g : Game) : (enemyTurn e g).2.walls ⊆ g.walls := by
  unfold enemyTurn
  split_ifs
  · exact updateEnemyAI_walls _ _
  · exact List.Subset.refl _

theorem enemiesLoop_walls (es : List Object) (g : Game) :
    (enemiesLoop es g).2.walls ⊆ g.walls := by
  induction es generalizing g with
  | nil => exact List.Subset.refl _
  | cons e es ih =>
    simp only [enemiesLoop]
    refine List.Subset.trans (ih _) ?_
    split_ifs
    · exact enemyTurn_walls e g
    · exact enemyTurn_walls e g

theorem bulletsPhase_walls (g : Game) : (bulletsPhase g).walls ⊆ g.walls :=
  moveBullets_walls g.bullets g

theorem enemiesPhase_walls (g : Game) : (enemiesPhase g).walls ⊆ g.walls :=
  enemiesLoop_walls g.enemies g

theorem beforePass_walls (g : Game) : (beforePass g).walls ⊆ g.walls := by
  unfold beforePass
  refine List.Subset.trans (enemiesPhase_walls _) ?_
  rw [(playerPhase_fields (bulletsPhase g)).2.2.2.2.1]
  exact bulletsPhase_walls g

theorem updateState_walls (g : Game) : (updateState g).walls ⊆ g.walls := by
  rw [updateState_eq, (respawnPhase_fields _).2.2.2.2.2]
  unfold playerHitPhase
  rw [playerHitLoop_spec]
  show (afterPass g).walls ⊆ g.walls
  unfold afterPass
  rw [(collidePhase_fields (beforePass g)).2.2.2.1]
  exact beforePass_walls g

theorem handleInput_walls (k : Key) (g : Game) : (handleInput k g).walls ⊆ g.walls := by
  cases k <;> first | exact List.Subset.refl _ | exact fireBullet_walls _ _ g

theorem sameSession_walls {g s : Game} (h : SameSession g s) : s.walls ⊆ g.walls := by
  induction h with
  | start => exact List.Subset.refl _
  | tick _ ih => exact List.Subset.trans (updateState_walls _) ih
  | input k _ ih => exact List.Subset.trans (handleInput_walls k _) ih

theorem initGame_walls (g0 : Game) : ∀ p ∈ (initGame g0).walls, wallRegion p := by
  have e : initGame g0 = spawnEnemy (spawnEnemy (spawnEnemy (generateWalls
      { player := { Pos := { X := 2, Y := Height / 2 }, Dir := Direction.Right, id := 0 },
        enemies := [], bullets := [], walls := [], score := 0, isOver := false,
        playerMoveCooldown := 0, rng := g0.rng }))) := rfl
  have hw := (generateWalls_spec
    { player := { Pos := { X := 2, Y := Height / 2 }, Dir := Direction.Right, id := 0 },
      enemies := [], bullets := [], walls := [], score := 0, isOver := false,
      playerMoveCooldown := 0, rng := g0.rng }).2.2.2.2.2.2 (by simp)
  rw [e]
  generalize generateWalls
    { player := { Pos := { X := 2, Y := Height / 2 }, Dir := Direction.Right, id := 0 },
      enemies := [], bullets := [], walls := [], score := 0, isOver := false,
      playerMoveCooldown := 0, rng := g0.rng } = G at *
  exact hw

theorem reachable_walls {g : Game} (h : Reachable g) : ∀ p ∈ g.walls, wallRegion p := by
  induction h with
  | init g0 => exact initGame_walls g0
  | tick _ ih => exact fun p hp => ih p (updateState_walls _ hp)
  | input k _ ih => exact fun p hp => ih p (handleInput_walls k _ hp)

/-! ## C11, C12: the wall set -/

/-- C11: in every state reached from `initGame` by ticks and key events, every
wall cell has 5 <= X <= Width-2 and 1 <= Y <= Height-2: none is on the border
ring and none is in the columns X < 5 around the player's start. -/
theorem wall_region_invariant (g : Game) (h : Reachable g) :
    ∀ p ∈ g.walls, 5 ≤ p.X ∧ p.X ≤ Width - 2 ∧ 1 ≤ p.Y ∧ p.Y ≤ Height - 2 :=
  reachable_walls h

set_option maxRecDepth 100000 in
/-- Witness for C11: the wall cell (20, 5) of a state reached by `initGame`, a
fire key and a tick. -/
theorem wall_region_invariant_witness :
    Reachable (updateState (handleInput Key.KeySpace (initGame (seedG 0 [])))) ∧
    ((5 : Int) ≤ 20 ∧ (20 : Int) ≤ Width - 2 ∧ (1 : Int) ≤ 5 ∧ (5 : Int) ≤ Height - 2) :=
  ⟨Reachable.tick (Reachable.input _ (Reachable.init _)),
   wall_region_invariant (updateState (handleInput Key.KeySpace (initGame (seedG 0 []))))
     (Reachable.tick (Reachable.input Key.KeySpace (Reachable.init (seedG 0 []))))
     ⟨20, 5⟩ (by decide)⟩

/-- C12: the wall set after a tick, and after any key event, is contained in
the wall set before it; so through any run of ticks and key events of one
session the wall set only shrinks, and a cell that is not a wall (for instance
one removed by a bullet) is not a wall in any later state of that session. -/
theorem walls_never_regenerate (g : Game) :
    (updateState g).walls ⊆ g.walls ∧
    (∀ k, (handleInput k g).walls ⊆ g.walls) ∧
    (∀ s, SameSession g s → s.walls ⊆ g.walls) ∧
    (∀ s p, SameSession g s → p ∉ g.walls → p ∉ s.walls) :=
  ⟨updateState_walls g, fun k => handleInput_walls k g, fun _ h => sameSession_walls h,
   fun _ _ h hp hs => hp (sameSession_walls h hs)⟩

/-- Witness for C12: the cell (19, 5) is no wall of the state and is no wall
after a fire key and a tick. -/
theorem walls_never_regenerate_witness :
    (⟨19, 5⟩ : Point) ∉ (updateState (handleInput Key.KeySpace
      (quietG 0 [] [] [⟨20, 5⟩]))).walls :=
  (walls_never_regenerate (quietG 0 [] [] [⟨20, 5⟩])).2.2.2 _ ⟨19, 5⟩
    (SameSession.tick (SameSession.input Key.KeySpace SameSession.start)) (by decide)

/-! ## C17, C18: roster size and player cell -/

theorem respawnPhase_enemies (g : Game) :
    (respawnPhase g).enemies = g.enemies ∨
    (g.enemies.length < 3 ∧ ∃ e, (respawnPhase g).enemies = g.enemies ++ [e]) := by
  unfold respawnPhase
  split_ifs with h1 h2
  · exact Or.inr ⟨h1, _, rfl⟩
  · exact Or.inl rfl
  · exact Or.inl rfl

theorem updateState_enemies (g : Game) :
    (updateState g).enemies = (afterPass g).enemies ∨
    ((afterPass g).enemies.length < 3 ∧
      ∃ e, (updateState g).enemies = (afterPass g).enemies ++ [e]) := by
  have h := respawnPhase_enemies (playerHitPhase (afterPass g))
  have e : (playerHitPhase (afterPass g)).enemies = (afterPass g).enemies := by
    unfold playerHitPhase; rw [playerHitLoop_spec]
  rw [e] at h
  exact h

theorem afterPass_length (g : Game) : (afterPass g).enemies.length ≤ g.enemies.length := by
  have h1 := (collidePhase_fields (beforePass g)).2.2.2.2.1
  have h2 := (beforePass_fields g).2.2.1
  unfold afterPass
  omega

theorem updateState_length (g : Game) (h : g.enemies.length ≤ 3) :
    (updateState g).enemies.length ≤ 3 := by
  have h1 := afterPass_length g
  rcases updateState_enemies g with e | ⟨hlt, e', e⟩
  · rw [e]; omega
  · rw [e, List.length_append]; simp; omega

theorem handleInput_enemies (k : Key) (g : Game) : (handleInput k g).enemies = g.enemies := by
  cases k <;> first | rfl | exact (fireBullet_frame _ _ g).2.1

theorem reachable_enemies {g : Game} (h : Reachable g) : g.enemies.length ≤ 3 := by
  induction h with
  | init g0 => exact le_of_eq (initGame_fields g0).1
  | tick _ ih => exact updateState_length _ ih
  | input k _ ih => rw [handleInput_enemies]; exact ih

/-- C17: every state reached from `initGame` by ticks and key events has at
most 3 enemies.  A tick (of any state) ends with the roster left by the
bullet-vs-enemy pass or with that roster plus one new enemy, the latter only
when fewer than 3 enemies survived the pass; the pass never adds enemies. -/
theorem enemy_population_bound (g : Game) (h : Reachable g) :
    g.enemies.length ≤ 3 ∧
    (∀ s : Game,
      ((updateState s).enemies = (afterPass s).enemies ∨
        ∃ e, (updateState s).enemies = (afterPass s).enemies ++ [e]) ∧
      (updateState s).enemies.length ≤ (afterPass s).enemies.length + 1 ∧
      (3 ≤ (afterPass s).enemies.length → (updateState s).enemies = (afterPass s).enemies) ∧
      (afterPass s).enemies.length ≤ s.enemies.length) := by
  refine ⟨reachable_enemies h, fun s => ?_⟩
  rcases updateState_enemies s with e | ⟨hlt, e', e⟩
  · exact ⟨Or.inl e, by rw [e]; omega, fun _ => e, afterPass_length s⟩
  · refine ⟨Or.inr ⟨e', e⟩, ?_, fun h3 => absurd hlt (by omega), afterPass_length s⟩
    rw [e, List.length_append]; simp

/-- Witness for C17: the state after `initGame` and one tick. -/
theorem enemy_population_bound_witness :
    (updateState (initGame (seedG 0 []))).enemies.length ≤ 3 :=
  (enemy_population_bound _ (Reachable.tick (Reachable.init (seedG 0 [])))).1

theorem tryMove_pos (obj : Object) (g : Game) :
    (tryMove obj g).2.1.Pos = obj.Pos ∨
    (interior (tryMove obj g).2.1.Pos ∧ (tryMove obj g).2.1.Pos ∉ g.walls) := by
  unfold tryMove
  by_cases hb : outOfBounds (stepPos obj.Pos obj.Dir) = true
  · simp [hb]
  · by_cases hw : stepPos obj.Pos obj.Dir ∈ g.walls
    · simp [hb, hasWall, hw]
    · have hi := (outOfBounds_false_iff _).1 (Bool.not_eq_true _ ▸ hb)
      simp [hb, hasWall, hw, hi]

theorem PlayerOk_mono {g s : Game} (h : PlayerOk g) (hp : s.player.Pos = g.player.Pos)
    (hw : s.walls ⊆ g.walls) : PlayerOk s := by
  unfold PlayerOk at *
  rw [hp]
  exact ⟨h.1, fun hm => h.2 (hw hm)⟩

theorem playerPhase_ok (g : Game) (h : PlayerOk g) : PlayerOk (playerPhase g) := by
  have hw := (playerPhase_fields g).2.2.2.2.1
  unfold PlayerOk
  rw [hw]
  unfold playerPhase
  split_ifs
  · rcases tryMove_pos g.player g with e | e
    · show interior (tryMove g.player g).2.1.Pos ∧ (tryMove g.player g).2.1.Pos ∉ g.walls
      rw [e]; exact h
    · exact e
  · exact h

theorem updateState_ok (g : Game) (h : PlayerOk g) : PlayerOk (updateState g) := by
  have h1 : PlayerOk (bulletsPhase g) :=
    PlayerOk_mono h (congrArg Object.Pos (bulletsPhase_frame g).1) (bulletsPhase_walls g)
  have h2 := playerPhase_ok _ h1
  refine PlayerOk_mono h2 (congrArg Object.Pos (updateState_fields g).1) ?_
  refine fun p hp => ?_
  have h3 : (updateState g).walls ⊆ (beforePass g).walls := by
    rw [updateState_eq, (respawnPhase_fields _).2.2.2.2.2]
    unfold playerHitPhase
    rw [playerHitLoop_spec]
    show (afterPass g).walls ⊆ _
    unfold afterPass
    rw [(collidePhase_fields (beforePass g)).2.2.2.1]
    exact List.Subset.refl _
  exact enemiesPhase_walls _ (h3 hp)

theorem handleInput_ok (k : Key) (g : Game) (h : PlayerOk g) : PlayerOk (handleInput k g) := by
  refine PlayerOk_mono h ?_ (handleInput_walls k g)
  cases k <;> first | rfl | exact congrArg Object.Pos (fireBullet_frame _ _ g).1

theorem initGame_ok (g0 : Game) : PlayerOk (initGame g0) := by
  obtain ⟨_, _, _, _, _, _, hp, _, hw⟩ := initGame_fields g0
  refine ⟨?_, hw⟩
  rw [hp]; decide

theorem reachable_ok {g : Game} (h : Reachable g) : PlayerOk g := by
  induction h with
  | init g0 => exact initGame_ok g0
  | tick _ ih => exact updateState_ok _ ih
  | input k _ ih => exact handleInput_ok k _ ih

/-- C18: in every state reached from `initGame` by ticks and key events the
player stands strictly inside the interior on a cell that is not a wall of the
current wall set; a restart (`initGame` from that state) gives such a state
again. -/
theorem player_cell_invariant (g : Game) (h : Reachable g) :
    (1 ≤ g.player.Pos.X ∧ g.player.Pos.X ≤ Width - 2 ∧
      1 ≤ g.player.Pos.Y ∧ g.player.Pos.Y ≤ Height - 2) ∧
    g.player.Pos ∉ g.walls ∧
    Reachable (initGame g) ∧
    (1 ≤ (initGame g).player.Pos.X ∧ (initGame g).player.Pos.X ≤ Width - 2 ∧
      1 ≤ (initGame g).player.Pos.Y ∧ (initGame g).player.Pos.Y ≤ Height - 2) ∧
    (initGame g).player.Pos ∉ (initGame g).walls :=
  ⟨(reachable_ok h).1, (reachable_ok h).2, Reachable.init g,
   (initGame_ok g).1, (initGame_ok g).2⟩

/-- Witness for C18: the state after `initGame`, a tick and a fire key. -/
theorem player_cell_invariant_witness :
    (handleInput Key.KeySpace (updateState (initGame (seedG 0 [])))).player.Pos ∉
      (handleInput Key.KeySpace (updateState (initGame (seedG 0 [])))).walls :=
  (player_cell_invariant _
    (Reachable.input Key.KeySpace (Reachable.tick (Reachable.init (seedG 0 []))))).2.1

/-! ## C13, C15: the driver loop and the key handler -/

/-- C13: with the over-flag set, a tick leaves the whole state unchanged and a
key event other than Esc replaces the state by a fresh `initGame` session
whose over-flag is clear; with the over-flag clear, a tick runs one
`updateState` and a key event other than Esc is passed to `handleInput`.  Esc
ends the loop in both cases and events that are not key events change
nothing. -/
theorem mainStep_contract (g : Game) :
    (g.isOver = true → mainStep Select.tick g = some g) ∧
    (g.isOver = true → ∀ ev : Event, ev.EvType = EventType.EventKey → ev.Key ≠ Key.KeyEsc →
      mainStep (Select.event ev) g = some (initGame g) ∧ (initGame g).isOver = false) ∧
    (g.isOver = false → mainStep Select.tick g = some (updateState g)) ∧
    (g.isOver = false → ∀ ev : Event, ev.EvType = EventType.EventKey → ev.Key ≠ Key.KeyEsc →
      mainStep (Select.event ev) g = some (handleInput ev.Key g)) ∧
    (∀ ev : Event, ev.EvType = EventType.EventKey → ev.Key = Key.KeyEsc →
      mainStep (Select.event ev) g = none) ∧
    (∀ ev : Event, ev.EvType ≠ EventType.EventKey → mainStep (Select.event ev) g = some g) := by
  refine ⟨?_, ?_, ?_, ?_, ?_, ?_⟩
  · intro h; simp [mainStep, h]
  · intro h ev ht hk
    exact ⟨by simp [mainStep, h, ht, hk], (initGame_fields g).2.2.2.1⟩
  · intro h; simp [mainStep, h]
  · intro h ev ht hk; simp [mainStep, h, ht, hk]
  · intro ev ht hk; simp [mainStep, ht, hk]
  · intro ev ht; simp [mainStep, ht]

/-- Witness for C13: a game-over state on a tick and on the key Up, and a
playing state on a tick and on the key Up. -/
theorem mainStep_contract_witness :
    mainStep Select.tick { quietG 0 [] [] [] with isOver := true } =
      some { quietG 0 [] [] [] with isOver := true } ∧
    (mainStep (Select.event ⟨EventType.EventKey, Key.KeyArrowUp⟩)
        { quietG 0 [] [] [] with isOver := true } =
      some (initGame { quietG 0 [] [] [] with isOver := true }) ∧
      (initGame { quietG 0 [] [] [] with isOver := true }).isOver = false) ∧
    mainStep Select.tick (quietG 0 [] [] []) = some (updateState (quietG 0 [] [] [])) ∧
    mainStep (Select.event ⟨EventType.EventKey, Key.KeyArrowUp⟩) (quietG 0 [] [] []) =
      some (handleInput Key.KeyArrowUp (quietG 0 [] [] [])) :=
  ⟨(mainStep_contract { quietG 0 [] [] [] with isOver := true }).1 rfl,
   (mainStep_contract { quietG 0 [] [] [] with isOver := true }).2.1 rfl
      ⟨EventType.EventKey, Key.KeyArrowUp⟩ rfl (by decide),
   (mainStep_contract (quietG 0 [] [] [])).2.2.1 rfl,
   (mainStep_contract (quietG 0 [] [] [])).2.2.2.1 rfl
      ⟨EventType.EventKey, Key.KeyArrowUp⟩ rfl (by decide)⟩

/-- C15: an arrow key sets the player's heading to the key's direction and
changes nothing else; the fire key is `fireBullet` from the player's position
and heading, whatever the cooldown, and leaves the player, the cooldown, the
enemies, the score and the over-flag unchanged; every other key changes
nothing. -/
theorem handleInput_contract (g : Game) :
    handleInput Key.KeyArrowUp g = { g with player := { g.player with Dir := Direction.Up } } ∧
    handleInput Key.KeyArrowDown g =
      { g with player := { g.player with Dir := Direction.Down } } ∧
    handleInput Key.KeyArrowLeft g =
      { g with player := { g.player with Dir := Direction.Left } } ∧
    handleInput Key.KeyArrowRight g =
      { g with player := { g.player with Dir := Direction.Right } } ∧
    (handleInput Key.KeySpace g = fireBullet g.player.Pos g.player.Dir g ∧
      (handleInput Key.KeySpace g).player = g.player ∧
      (handleInput Key.KeySpace g).playerMoveCooldown = g.playerMoveCooldown ∧
      (handleInput Key.KeySpace g).enemies = g.enemies ∧
      (handleInput Key.KeySpace g).score = g.score ∧
      (handleInput Key.KeySpace g).isOver = g.isOver) ∧
    handleInput Key.KeyEsc g = g ∧
    (∀ code, handleInput (Key.Other code) g = g) := by
  obtain ⟨f1, f2, f3, f4, f5⟩ := fireBullet_frame g.player.Pos g.player.Dir g
  exact ⟨rfl, rfl, rfl, rfl, ⟨rfl, f1, f5, f2, f3, f4⟩, rfl, fun _ => rfl⟩

/-! ## C16: the pursuit heading -/

theorem point_ne_iff (p q : Point) : p ≠ q ↔ (p.X ≠ q.X ∨ p.Y ≠ q.Y) := by
  cases p; cases q
  simp only [ne_eq, Point.mk.injEq]
  tauto

theorem pursuitDir_cases (player e : Point) :
    ((player.Y - e.Y).natAbs < (player.X - e.X).natAbs →
      pursuitDir player e =
        (if player.X - e.X > 0 then Direction.Right else Direction.Left)) ∧
    (¬ (player.Y - e.Y).natAbs < (player.X - e.X).natAbs →
      pursuitDir player e =
        (if player.Y - e.Y > 0 then Direction.Down else Direction.Up)) := by
  unfold pursuitDir
  constructor
  · intro h; rw [if_pos h]
  · intro h; rw [if_neg h]

theorem pursuit_step_closer (player e : Point) (h : e ≠ player) :
    manhattan (stepPos e (pursuitDir player e)) player + 1 = manhattan e player := by
  rcases (point_ne_iff e player).1 h with hx | hy
  all_goals
    unfold pursuitDir manhattan
    split_ifs <;> simp only [stepPos] <;> omega

theorem enemyMove_pursuit (obj : Object) (g : Game)
    (hb : below g.rng.Float32.1 1 5 = false)
    (hm : (tryMove { obj with Dir := pursuitDir g.player.Pos obj.Pos }
      { g with rng := g.rng.Float32.2 }).1 = true) :
    (enemyMove obj g).1 =
      { obj with Dir := pursuitDir g.player.Pos obj.Pos,
                 Pos := stepPos obj.Pos (pursuitDir g.player.Pos obj.Pos) } := by
  have hm2 := hm
  unfold enemyMove
  rw [hb, if_neg (by simp), if_pos hm]
  unfold tryMove at hm2 ⊢
  dsimp only at hm2 ⊢
  split_ifs at hm2 ⊢
  simp_all


theorem pursuit_axis (player e : Point) (h : e ≠ player) :
    ((player.Y - e.Y).natAbs < (player.X - e.X).natAbs →
      (player.X - (stepPos e (pursuitDir player e)).X).natAbs + 1 =
        (player.X - e.X).natAbs ∧
      (stepPos e (pursuitDir player e)).Y = e.Y) ∧
    (¬ (player.Y - e.Y).natAbs < (player.X - e.X).natAbs →
      (player.Y - (stepPos e (pursuitDir player e)).Y).natAbs + 1 =
        (player.Y - e.Y).natAbs ∧
      (stepPos e (pursuitDir player e)).X = e.X) := by
  rcases (point_ne_iff e player).1 h with hx | hy
  all_goals
    unfold pursuitDir
    constructor
    all_goals
      intro hlt
      split_ifs <;> refine ⟨?_, ?_⟩ <;> simp only [stepPos] <;> omega

/-- C16: with dx = player.X - enemy.X and dy = player.Y - enemy.Y, the pursuit
heading is horizontal exactly when |dx| > |dy| (Right if dx > 0, else Left) and
vertical otherwise (Down if dy > 0, else Up), ties going vertical.  For an
enemy that is not on the player's cell, the cell one step in that heading is
exactly one closer to the player in Manhattan distance, the offset on the
chosen axis dropping by 1 and the other coordinate staying put.  On the
pursuit branch of `updateEnemyAI` a successful move puts the enemy on that
cell with that heading. -/
theorem pursuit_heading (player e : Point) :
    ((player.Y - e.Y).natAbs < (player.X - e.X).natAbs →
      pursuitDir player e =
        (if player.X - e.X > 0 then Direction.Right else Direction.Left)) ∧
    (¬ (player.Y - e.Y).natAbs < (player.X - e.X).natAbs →
      pursuitDir player e =
        (if player.Y - e.Y > 0 then Direction.Down else Direction.Up)) ∧
    ((pursuitDir player e = Direction.Left ∨ pursuitDir player e = Direction.Right) ↔
      (player.Y - e.Y).natAbs < (player.X - e.X).natAbs) ∧
    (e ≠ player →
      manhattan (stepPos e (pursuitDir player e)) player + 1 = manhattan e player) ∧
    (e ≠ player → (player.Y - e.Y).natAbs < (player.X - e.X).natAbs →
      (player.X - (stepPos e (pursuitDir player e)).X).natAbs + 1 =
        (player.X - e.X).natAbs ∧
      (stepPos e (pursuitDir player e)).Y = e.Y) ∧
    (e ≠ player → ¬ (player.Y - e.Y).natAbs < (player.X - e.X).natAbs →
      (player.Y - (stepPos e (pursuitDir player e)).Y).natAbs + 1 =
        (player.Y - e.Y).natAbs ∧
      (stepPos e (pursuitDir player e)).X = e.X) ∧
    (∀ (obj : Object) (g : Game), g.player.Pos = player → obj.Pos = e →
      below g.rng.Float32.1 1 5 = false →
      (tryMove { obj with Dir := pursuitDir player e } { g with rng := g.rng.Float32.2 }).1 =
        true →
      (updateEnemyAI obj g).1.Dir = pursuitDir player e ∧
      (updateEnemyAI obj g).1.Pos = stepPos e (pursuitDir player e)) := by
  obtain ⟨c1, c2⟩ := pursuitDir_cases player e
  refine ⟨c1, c2, ?_, pursuit_step_closer player e, fun h => (pursuit_axis player e h).1,
    fun h => (pursuit_axis player e h).2, ?_⟩
  · constructor
    · intro h
      by_contra hn
      rw [c2 hn] at h
      split_ifs at h <;> simp at h
    · intro h
      rw [c1 h]
      split_ifs <;> simp
  · intro obj g hp he hb hm
    subst hp he
    have := enemyMove_pursuit obj g hb hm
    unfold updateEnemyAI
    rw [this]
    exact ⟨rfl, rfl⟩

/-- Witness for C16: an enemy at (38, 11) chasing the player at (3, 10) turns
left, and the cell to its left is one step closer to the player. -/
theorem pursuit_heading_witness :
    pursuitDir ⟨3, 10⟩ ⟨38, 11⟩ = Direction.Left ∧
    manhattan (stepPos ⟨38, 11⟩ (pursuitDir ⟨3, 10⟩ ⟨38, 11⟩)) ⟨3, 10⟩ + 1 =
      manhattan ⟨38, 11⟩ ⟨3, 10⟩ :=
  ⟨(pursuit_heading ⟨3, 10⟩ ⟨38, 11⟩).1 (by decide),
   (pursuit_heading ⟨3, 10⟩ ⟨38, 11⟩).2.2.2.1 (by decide)⟩

/-! ## C19: the digits of the score -/

theorem digitRune_eq (d : Nat) (h : d < 10) :
    Char.ofNat (48 + d) = Nat.digitChar d ∧ (Char.ofNat (48 + d)).toNat - 48 = d ∧
    ((Char.ofNat (48 + d)).isDigit = true) ∧ (d ≠ 0 → Char.ofNat (48 + d) ≠ '0') := by
  interval_cases d <;> decide

theorem digitsLoop_nat (n : Nat) : ∀ s : List Char,
    digitsLoop (n : Int) s =
      (Nat.digits 10 n).reverse.map (fun d => Char.ofNat (48 + d)) ++ s := by
  induction n using Nat.strong_induction_on with
  | _ n ih =>
    intro s
    rcases Nat.eq_zero_or_pos n with h0 | hpos
    · subst h0
      rw [digitsLoop]
      simp
    · rw [digitsLoop]
      have hp : (0 : Int) < (n : Int) := by omega
      have hd : (n : Int) / 10 = ((n / 10 : Nat) : Int) := by omega
      have hm : ((n : Int) % 10).toNat = n % 10 := by omega
      rw [dif_pos hp, hd, hm, ih (n / 10) (by omega)]
      rw [Nat.digits_def' (by norm_num) hpos]
      simp


theorem readBack_digits (l : List Nat) (h : ∀ d ∈ l, d < 10) :
    readBack (l.reverse.map (fun d => Char.ofNat (48 + d))) = Nat.ofDigits 10 l := by
  induction l with
  | nil => rfl
  | cons d l ih =>
    have hd := (digitRune_eq d (h d (List.mem_cons_self _ _))).2.1
    have hl := ih (fun c hc => h c (List.mem_cons_of_mem _ hc))
    unfold readBack at hl ⊢
    rw [List.reverse_cons, List.map_append, List.foldl_append, hl, Nat.ofDigits_cons]
    simp only [List.map_cons, List.map_nil, List.foldl_cons, List.foldl_nil]
    rw [hd]
    omega

theorem toDigitsCore_eq (fuel : Nat) : ∀ (n : Nat) (ds : List Char), 0 < n → n < fuel →
    Nat.toDigitsCore 10 fuel n ds =
      (Nat.digits 10 n).reverse.map (fun d => Char.ofNat (48 + d)) ++ ds := by
  induction fuel with
  | zero => intro n ds _ h; omega
  | succ fuel ih =>
    intro n ds hn hf
    have hc := (digitRune_eq (n % 10) (Nat.mod_lt _ (by norm_num))).1
    rw [Nat.digits_def' (by norm_num) hn]
    simp only [Nat.toDigitsCore]
    by_cases h0 : n / 10 = 0
    · simp [h0, hc]
    · rw [if_neg h0, ih (n / 10) _ (Nat.pos_of_ne_zero h0) (by omega)]
      simp [hc]

theorem drawNumberRunes_nat (n : Nat) :
    drawNumberRunes (n : Int) =
      (if n = 0 then ['0'] else (Nat.digits 10 n).reverse.map (fun d => Char.ofNat (48 + d))) ∧
    drawNumberRunes (n : Int) = Nat.toDigits 10 n := by
  unfold drawNumberRunes
  rcases Nat.eq_zero_or_pos n with h0 | hpos
  · subst h0
    constructor
    · rw [digitsLoop_nat]; simp
    · rw [digitsLoop_nat]
      have : Nat.toDigits 10 0 = ['0'] := by decide
      rw [this]; simp
  · have hne : n ≠ 0 := by omega
    have hne2 : ¬ ((n : Int) = 0) := by omega
    rw [digitsLoop_nat, if_neg hne2, if_neg hne, List.append_nil]
    refine ⟨rfl, ?_⟩
    unfold Nat.toDigits
    rw [toDigitsCore_eq (n + 1) n [] hpos (by omega), List.append_nil]

theorem writeRunes_eq (x y : Int) (fg : Nat) (s : List Char) : ∀ i : Nat,
    writeRunes x y fg i s =
      (s.enumFrom i).map (fun p => { X := x + (p.1 : Int), Y := y, Ch := p.2, Fg := fg }) := by
  induction s with
  | nil => intro i; rfl
  | cons c cs ih => intro i; simp [writeRunes, List.enumFrom, ih]

/-- The runes of a non-negative number: the digits of Lean's own decimal
printer, all of them decimal digits, no leading zero, and read back they give
the number. -/
theorem drawNumberRunes_spec (n : Nat) :
    drawNumberRunes (n : Int) = Nat.toDigits 10 n ∧
    (n = 0 → drawNumberRunes (n : Int) = ['0']) ∧
    (0 < n → ∃ c rest, drawNumberRunes (n : Int) = c :: rest ∧ c ≠ '0') ∧
    (∀ c ∈ drawNumberRunes (n : Int), c.isDigit = true) ∧
    readBack (drawNumberRunes (n : Int)) = n := by
  obtain ⟨h1, h2⟩ := drawNumberRunes_nat n
  have hlt : ∀ d ∈ Nat.digits 10 n, d < 10 := fun d hd => Nat.digits_lt_base (by norm_num) hd
  refine ⟨h2, ?_, ?_, ?_, ?_⟩
  · intro h0; rw [h1, if_pos h0]
  · intro hpos
    have hne : n ≠ 0 := by omega
    have hnil : Nat.digits 10 n ≠ [] := Nat.digits_ne_nil_iff_ne_zero.2 hne
    have hlast := Nat.getLast_digit_ne_zero 10 hne
    rw [h1, if_neg hne]
    obtain ⟨l, a, hla⟩ : ∃ l a, Nat.digits 10 n = l ++ [a] :=
      ⟨_, _, (List.dropLast_append_getLast hnil).symm⟩
    have ha : a = (Nat.digits 10 n).getLast hnil := by
      simp [hla]
    refine ⟨Char.ofNat (48 + a), l.reverse.map (fun d => Char.ofNat (48 + d)), ?_, ?_⟩
    · rw [hla]; simp
    · have halt : a < 10 := hlt a (by rw [hla]; simp)
      exact (digitRune_eq a halt).2.2.2 (by rw [ha]; exact hlast)
  · intro c hc
    rw [h1] at hc
    split_ifs at hc with h0
    · simp at hc; subst hc; decide
    · simp only [List.mem_map, List.mem_reverse] at hc
      obtain ⟨d, hd, rfl⟩ := hc
      exact (digitRune_eq d (hlt d hd)).2.2.1
  · rw [h1]
    split_ifs with h0
    · subst h0; decide
    · rw [readBack_digits _ hlt, Nat.ofDigits_digits]

/-- C19: for every num >= 0 the runes that `drawNumber` builds are the decimal
representation of num (the digits Lean's decimal printer gives): the single
rune '0' for 0, otherwise decimal digits with a non-zero first one, and read
back as a decimal number they give num.  They are written left to right, the
i-th rune in column x + i of row y.  The digit loop is a total function (its
recursion is well-founded on num), so it terminates. -/
theorem drawNumber_digits (num : Int) (h : 0 ≤ num) (x y : Int) (fg : Nat) :
    drawNumberRunes num = Nat.toDigits 10 num.toNat ∧
    (num = 0 → drawNumberRunes num = ['0']) ∧
    (0 < num → ∃ c rest, drawNumberRunes num = c :: rest ∧ c ≠ '0') ∧
    (∀ c ∈ drawNumberRunes num, c.isDigit = true) ∧
    (readBack (drawNumberRunes num) : Int) = num ∧
    drawNumber x y num fg =
      (drawNumberRunes num).enum.map
        (fun p => { X := x + (p.1 : Int), Y := y, Ch := p.2, Fg := fg }) := by
  obtain ⟨n, rfl⟩ := Int.eq_ofNat_of_zero_le h
  obtain ⟨h1, h2, h3, h4, h5⟩ := drawNumberRunes_spec n
  refine ⟨h1, ?_, ?_, h4, ?_, ?_⟩
  · intro h0; exact h2 (by omega)
  · intro hp; exact h3 (by omega)
  · rw [h5]
  · unfold drawNumber
    rw [writeRunes_eq]
    rfl

/-- Witness for C19: the score 305 is drawn as the runes 3, 0, 5. -/
theorem drawNumber_digits_witness :
    (0 : Int) ≤ 305 ∧ drawNumberRunes 305 = ['3', '0', '5'] ∧
    (readBack (drawNumberRunes 305) : Int) = 305 :=
  ⟨by decide, (drawNumber_digits 305 (by decide) 37 20 0).1,
   (drawNumber_digits 305 (by decide) 37 20 0).2.2.2.2.1⟩

/-! ## C14: the first tick of a session -/

theorem firstTick_player (g0 : Game) :
    (updateState (initGame g0)).player.Pos = { X := 3, Y := 10 } := by
  obtain ⟨_, _, _, _, hc, _, hp, hd, _⟩ := initGame_fields g0
  have hw := initGame_walls g0
  obtain ⟨bp, _, _, _, bc⟩ := bulletsPhase_frame (initGame g0)
  have bw := bulletsPhase_walls (initGame g0)
  rw [(updateState_fields (initGame g0)).1]
  generalize initGame g0 = s at *
  generalize bulletsPhase s = t at *
  have tp : t.player.Pos = { X := 3 - 1, Y := 10 } := by rw [bp, hp]; rfl
  have td : t.player.Dir = Direction.Right := by rw [bp, hd]
  have hstep : stepPos t.player.Pos t.player.Dir = { X := 3, Y := 10 } := by
    rw [tp, td]; rfl
  have hnw : (⟨3, 10⟩ : Point) ∉ t.walls := by
    intro hm
    have := (hw _ (bw hm)).1
    simp at this
  unfold playerPhase
  rw [bc, hc, if_pos (le_refl _)]
  show (tryMove t.player t).2.1.Pos = _
  unfold tryMove
  rw [hstep]
  have hb : outOfBounds ⟨3, 10⟩ = false := by decide
  simp [hb, hasWall, hnw]

theorem firstTick_counts (g0 : Game) :
    (beforePass (initGame g0)).enemies.length = 3 ∧
    (updateState (initGame g0)).enemies.length ≤ 3 ∧
    (updateState (initGame g0)).score =
      100 * ((3 - (afterPass (initGame g0)).enemies.length : Nat) : Int) := by
  obtain ⟨hl, _, hs, _⟩ := initGame_fields g0
  have h1 := (beforePass_fields (initGame g0)).2.2.1
  have h2 := (updateState_fields (initGame g0)).2.1
  refine ⟨by rw [h1, hl], updateState_length _ (le_of_eq hl), ?_⟩
  rw [h2, hs, h1, hl, zero_add]

theorem firstTick_noHit (g0 : Game)
    (h : ∀ e ∈ (beforePass (initGame g0)).enemies, ∀ b ∈ (beforePass (initGame g0)).bullets,
      ¬ (b.Active = true ∧ b.Pos = e.Pos)) :
    (updateState (initGame g0)).enemies.length = 3 ∧ (updateState (initGame g0)).score = 0 := by
  obtain ⟨h3, _, hs⟩ := firstTick_counts g0
  have hk := collideLoop_noHit _ _ h
  have ha : (afterPass (initGame g0)).enemies = (beforePass (initGame g0)).enemies := by
    unfold afterPass collidePhase
    rw [hk]
  have hal : (afterPass (initGame g0)).enemies.length = 3 := by rw [ha, h3]
  constructor
  · rcases updateState_enemies (initGame g0) with e | ⟨hlt, _⟩
    · rw [e, hal]
    · omega
  · rw [hs, hal]; rfl

set_option maxRecDepth 100000 in
/-- C14 (counterexample): a fresh session, no input, one tick.  The second
enemy turns up, moves from (38, 11) to (38, 10) into the player's row and
fires; its bullet appears on (38, 9), the cell of the first enemy, which the
bullet-vs-enemy pass removes: 2 enemies are left and the score is 100. -/
theorem firstTick_enemy_fire :
    (initGame fireG).enemies.length = 3 ∧
    (updateState (initGame fireG)).enemies.length = 2 ∧
    (updateState (initGame fireG)).score = 100 ∧
    ¬ ((updateState (initGame fireG)).enemies.length = 3 ∧
        (updateState (initGame fireG)).score = 0) := by
  refine ⟨by decide, by decide, by decide, by decide⟩

/-- C14 (amended): after the first tick of a fresh session with no input the
player stands on (3, Height/2), the cell reached by its first move from the
start cell; the enemy count is at most 3 and the score is 100 times the number
of enemies removed by the bullet-vs-enemy pass; when no bullet lies, active, on
an enemy's cell at that pass (in particular when no enemy fired) the enemy
count is still 3 and the score is 0. -/
theorem firstTick_scenario (g0 : Game) :
    (updateState (initGame g0)).player.Pos = { X := 3, Y := Height / 2 } ∧
    ((updateState (initGame g0)).player.Pos = { X := 2, Y := Height / 2 } ∨
      (updateState (initGame g0)).player.Pos =
        stepPos { X := 2, Y := Height / 2 } Direction.Right) ∧
    (updateState (initGame g0)).enemies.length ≤ 3 ∧
    (updateState (initGame g0)).score =
      100 * ((3 - (afterPass (initGame g0)).enemies.length : Nat) : Int) ∧
    ((∀ e ∈ (beforePass (initGame g0)).enemies, ∀ b ∈ (beforePass (initGame g0)).bullets,
        ¬ (b.Active = true ∧ b.Pos = e.Pos)) →
      (updateState (initGame g0)).enemies.length = 3 ∧
      (updateState (initGame g0)).score = 0) ∧
    ((beforePass (initGame g0)).bullets = [] →
      (updateState (initGame g0)).enemies.length = 3 ∧
      (updateState (initGame g0)).score = 0) := by
  obtain ⟨_, c2, c3⟩ := firstTick_counts g0
  have hp := firstTick_player g0
  refine ⟨hp, Or.inr hp, c2, c3, firstTick_noHit g0, fun hb => firstTick_noHit g0 ?_⟩
  intro e _ b hbm
  rw [hb] at hbm
  simp at hbm

set_option maxRecDepth 100000 in
/-- Witness for C14 (amended): with every raw draw 0 no enemy fires in the
first tick; 3 enemies and score 0 remain. -/
theorem firstTick_scenario_witness :
    (updateState (initGame (seedG 0 []))).enemies.length = 3 ∧
    (updateState (initGame (seedG 0 []))).score = 0 :=
  (firstTick_scenario (seedG 0 [])).2.2.2.2.2 (by decide)

end Tanki
